import Mathlib

/-!
Verification of the `mcp-price-ranking` core against its natural-language
specification.

The development shallowly embeds the core components of the repository:

* `KoreaInvestmentAPIClient._wait_for_rate_limit` (src/api/client.py, the
  rate limiter) as a pure transition function on the limiter state, with
  wall-clock instants modelled as rationals and `asyncio.sleep` modelled as
  an exact delay;
* `KoreaInvestmentAPIClient._make_request` / `authenticate` (the HTTP
  pipeline) as a pure function over an environment that supplies the
  successive upstream responses, producing the outcome together with the
  trace of rate-limiter acquisitions and outbound HTTP calls;
* `CacheStrategy` (src/cache/cache_strategy.py): cache-key generation,
  the MD5-based filter hash, and the dynamic-TTL / market-hours logic;
* `RedisCache.get` / `RedisCache.set` (src/cache/redis_cache.py) over a
  pure key-value store with absolute expiries, including a faithful model
  of Python's `json.dumps` (default settings: `ensure_ascii=True`,
  separators `", "` and `": "`) and of the subset of `json.loads` the
  stored values exercise (ints rather than floats).
-/

namespace MCPPriceRanking

/-! ## Rate limiter: `KoreaInvestmentAPIClient._wait_for_rate_limit`

The client keeps `last_request_time : float` and `request_times : List[float]`.
`_wait_for_rate_limit` reads `current_time = time.time()` once on entry, sleeps
for the per-second spacing and for the sliding-window wait, and then records
the *entry* time (the stale `current_time`) both as `last_request_time` and in
`request_times`.  We model a call by its entry instant `t`; the value returned
by `rlStep` is the admission instant (entry plus both sleeps). -/

/-- `RETRY_CONFIG["MAX_RETRIES"]` from src/api/constants.py. -/
def retryConfigMaxRetries : Nat := 3

/-- `1.0 / RETRY_CONFIG["MAX_RETRIES"]`: the minimum-spacing constant used in
`_wait_for_rate_limit`. -/
def minIntervalQ : ℚ := 1 / (retryConfigMaxRetries : ℚ)

/-- The rate limiter's mutable state: `self.last_request_time` (initially `0`)
and `self.request_times` (initially `[]`). -/
structure RLState where
  last : ℚ
  times : List ℚ
deriving Repr, DecidableEq

/-- The state at client construction time. -/
def rlInit : RLState := { last := 0, times := [] }

/-- The per-second spacing sleep (client.py lines 92-94): if less than
`1/3` second passed since `last_request_time`, sleep the difference. -/
def rlWait1 (s : RLState) (t : ℚ) : ℚ :=
  if t - s.last < minIntervalQ then minIntervalQ - (t - s.last) else 0

/-- The lazy window prune (client.py line 97): keep timestamps younger than 60
seconds, measured against the entry instant `t`. -/
def rlPruned (s : RLState) (t : ℚ) : List ℚ :=
  s.times.filter (fun x => t - x < 60)

/-- The sliding-window sleep (client.py lines 98-101): with 50 or more
retained timestamps, sleep until the oldest is 60 seconds old (if that wait
is positive). -/
def rlWait2 (s : RLState) (t : ℚ) : ℚ :=
  if 50 ≤ (rlPruned s t).length then
    match rlPruned s t with
    | [] => 0
    | x :: _ => if 0 < 60 - (t - x) then 60 - (t - x) else 0
  else 0

/-- One call of `_wait_for_rate_limit`, entered at wall-clock instant `t`.
Returns the admission instant (entry time plus the two sleeps) and the updated
state.  Mirrors src/api/client.py lines 87-104; note that the code stores the
*pre-sleep* instant `t` both in `last_request_time` and in `request_times`
(lines 103-104), not the instant at which the call actually returns. -/
def rlStep (s : RLState) (t : ℚ) : ℚ × RLState :=
  (t + rlWait1 s t + rlWait2 s t, { last := t, times := rlPruned s t ++ [t] })

/-- Run a sequence of `acquire` calls (sequentially, each caller entering at
the given instant) and collect the admission instants. -/
def rlRun : RLState → List ℚ → List ℚ
  | _, [] => []
  | s, t :: ts =>
    let p := rlStep s t
    p.1 :: rlRun p.2 ts

/-- A schedule of entry instants is sequentially realizable when each call
enters no earlier than the previous call was admitted (callers that share one
cooperative flow cannot re-enter the limiter before it returned). -/
def rlSeqOK : RLState → List ℚ → Bool
  | _, [] => true
  | s, t :: ts =>
    let p := rlStep s t
    (decide (s.last ≤ t)) &&
      (match ts with
       | [] => true
       | t' :: _ => decide (p.1 ≤ t')) &&
      rlSeqOK p.2 ts

/-- Number of admissions strictly inside the trailing window `(hi - 60, hi]`. -/
def admissionsInWindow (adms : List ℚ) (hi : ℚ) : Nat :=
  (adms.filter (fun a => decide (hi - 60 < a) && decide (a ≤ hi))).length

/-- Consecutive admissions all at least `d` apart. -/
def spacedBy (d : ℚ) : List ℚ → Bool
  | [] => true
  | [_] => true
  | a :: b :: rest => decide (a + d ≤ b) && spacedBy d (b :: rest)

/-- The 101-call schedule that defeats the 50-per-60-seconds ceiling: 50 calls
one second apart, a 51st that is parked by the window sleep but recorded with
its stale entry instant, then 50 more calls that each wait only for the next
stale timestamp to age out. -/
def rlBugSchedule : List ℚ :=
  ((List.range 50).map (fun k => (100 + k : ℚ))) ++ [150] ++
    ((List.range 50).map (fun k => (160 + k : ℚ)))

/-- The sliding-window sleep is never negative. -/
theorem rlWait2_nonneg (s : RLState) (t : ℚ) : 0 ≤ rlWait2 s t := by
  unfold rlWait2
  split
  · split
    · exact le_refl 0
    · split
      · linarith
      · exact le_refl 0
  · exact le_refl 0

/-- The spacing sleep delays the admission to `last_request_time + 1/3` at
least, where `last_request_time` is the previous call's entry instant. -/
theorem rlWait1_spacing (s : RLState) (t : ℚ) :
    s.last + minIntervalQ ≤ t + rlWait1 s t := by
  unfold rlWait1
  split
  · linarith
  · linarith [le_of_not_lt (by assumption : ¬ t - s.last < minIntervalQ)]

set_option maxRecDepth 8000

/-- C3: the code violates the 50-per-trailing-60-seconds ceiling that both the
spec and the code's own comment (`# 분당 50회 제한`, "50 per minute limit")
promise.  The 101-call schedule `rlBugSchedule` is sequentially realizable
(each call enters after the previous one returned), yet 51 of its admissions
fall inside the trailing 60-second window `(150, 210]`: call 51 is parked for
40 seconds by the window sleep but records its stale entry instant `150`, so
the 50 calls that follow each wait only one second for the next stale
timestamp to age out. -/
theorem c3_sliding_window_ceiling_violated :
    rlSeqOK rlInit rlBugSchedule = true ∧
    admissionsInWindow (rlRun rlInit rlBugSchedule) 210 = 51 ∧ 50 < 51 := by
  refine ⟨?_, ?_, by omega⟩
  · with_unfolding_all decide
  · with_unfolding_all decide

/-- C4 counterexample: three sequentially realizable `acquire` calls whose
second and third admissions coincide, so consecutive admissions are *not*
separated by `1/3` second.  The second call enters at `100` (the instant the
first returned), sleeps `1/3`, and is admitted at `100 + 1/3`; but it records
`last_request_time = 100`, so the third call, entering at `100 + 1/3`, sees a
full `1/3`-second gap since the *recorded* time and is admitted immediately —
at the same instant as the second. -/
theorem c4_counterexample_zero_gap :
    rlSeqOK rlInit [100, 100, 100 + 1/3] = true ∧
    rlRun rlInit [100, 100, 100 + 1/3] = [100, 100 + 1/3, 100 + 1/3] ∧
    spacedBy minIntervalQ (rlRun rlInit [100, 100, 100 + 1/3]) = false := by
  refine ⟨?_, ?_, ?_⟩ <;> (with_unfolding_all decide)

/-- C4 amended: the `1/3`-second floor that `_wait_for_rate_limit` actually
enforces is measured from the previously *recorded* request time (the previous
caller's entry instant, stored pre-sleep in `last_request_time`) to the next
admission: every admission happens at `last_request_time + 1/3` or later.
Spacing between consecutive admission instants themselves can be zero
(`c4_counterexample_zero_gap`). -/
theorem c4_admission_spacing_from_recorded_entry (s : RLState) (t : ℚ) :
    s.last + minIntervalQ ≤ (rlStep s t).1 := by
  have h1 := rlWait1_spacing s t
  have h2 := rlWait2_nonneg s t
  unfold rlStep
  dsimp only
  linarith

/-! ## HTTP pipeline: `KoreaInvestmentAPIClient._make_request` / `authenticate`

`_make_request` (client.py lines 155-234) is modelled as a pure function over
an environment that supplies the successive responses of the token endpoint
and of the data endpoint.  Alongside the outcome it produces the trace of
side effects: rate-limiter acquisitions (`_wait_for_rate_limit` calls), token
POSTs, and data calls with the `Authorization` header they carry. -/

/-- A response of the upstream data endpoint: HTTP status, parsed JSON body
(kept abstract as a string), and the parsed `Retry-After` header when
present. -/
structure UpstreamResponse where
  status : Nat
  body : String
  retryAfter : Option Nat
deriving Repr, DecidableEq

/-- A response of the token endpoint `POST /oauth2/tokenP`: HTTP status and
the granted `access_token` (meaningful only when the status is 200). -/
structure TokenResponse where
  status : Nat
  accessToken : String
deriving Repr, DecidableEq

/-- One observable side effect of a logical `_make_request` call. -/
inductive ReqEvent where
  | acquire
  | tokenPost (status : Nat)
  | dataCall (authHeader : Option String) (status : Nat)
deriving Repr, DecidableEq

/-- The outcome of `_make_request`: the parsed body on 200, or the typed
exception the code raises (`apiErr` is `APIError` carrying a status code). -/
inductive ReqOutcome where
  | ok (body : String)
  | authErr
  | apiErr (status : Nat)
  | rateLimited (retryAfter : Nat)
  | notFound
deriving Repr, DecidableEq

/-- One `authenticate()` call (client.py lines 106-153) given the token
endpoint's response: acquires one rate-limiter slot, POSTs, and on 200 stores
the new `access_token`; a 401 raises `AuthenticationError`, anything else
raises `APIError` with the status, leaving the held token unchanged. -/
def authenticateStep (tok : Option String) (tr : TokenResponse) :
    Option String × List ReqEvent × Option ReqOutcome :=
  if tr.status = 200 then (some tr.accessToken, [.acquire, .tokenPost 200], none)
  else if tr.status = 401 then (tok, [.acquire, .tokenPost 401], some .authErr)
  else (tok, [.acquire, .tokenPost tr.status], some (.apiErr tr.status))

/-- The environment of one logical `_make_request` call: the client's token
state at entry and the streams of upstream responses (the `i`-th token POST
receives `tokens i`; the `i`-th data call receives `resps i`). -/
structure PipelineEnv where
  tokenExpired : Bool
  token0 : Option String
  tokens : Nat → TokenResponse
  resps : Nat → UpstreamResponse

/-- The `Authorization` header of the primary request (client.py lines
175-176): set only when `self.access_token` is truthy (a nonempty string). -/
def bearerHeader (tok : Option String) : Option String :=
  match tok with
  | none => none
  | some tk => if tk = "" then none else some ("Bearer " ++ tk)

/-- The index into the token-response stream consumed by the 401 re-auth:
`1` when an initial refresh already consumed response `0`, else `0`. -/
def reAuthIdx (env : PipelineEnv) : Nat := if env.tokenExpired then 1 else 0

/-- `_make_request` (client.py lines 155-234): refresh the token if expired,
acquire one rate-limiter slot, issue the data call; on 401 re-authenticate
(which acquires its own slot for its token POST, line 119) and reissue the
data request exactly once *without* a fresh acquire (lines 196-212), with the
header rebuilt from the new token and a non-200 retry mapped to `APIError`;
map 429/404/other statuses to their typed errors (lines 213-227). -/
def makeRequest (env : PipelineEnv) : ReqOutcome × List ReqEvent :=
  match (if env.tokenExpired then authenticateStep env.token0 (env.tokens 0)
         else (env.token0, ([], none))) with
  | (_, ev0, some e) => (e, ev0)
  | (tok1, ev0, none) =>
    let r := env.resps 0
    let hdr := bearerHeader tok1
    let ev1 := ev0 ++ [.acquire, .dataCall hdr r.status]
    if r.status = 200 then (.ok r.body, ev1)
    else if r.status = 401 then
      match authenticateStep tok1 (env.tokens (reAuthIdx env)) with
      | (_, ev2, some e) => (e, ev1 ++ ev2)
      | (tok2, ev2, none) =>
        let hdr2 := some ("Bearer " ++ tok2.getD "")
        let r2 := env.resps 1
        let ev3 := ev1 ++ ev2 ++ [.dataCall hdr2 r2.status]
        if r2.status = 200 then (.ok r2.body, ev3) else (.apiErr r2.status, ev3)
    else if r.status = 429 then (.rateLimited (r.retryAfter.getD 60), ev1)
    else if r.status = 404 then (.notFound, ev1)
    else (.apiErr r.status, ev1)

/-- Number of `_wait_for_rate_limit` acquisitions in a trace. -/
def countAcquires (evs : List ReqEvent) : Nat :=
  (evs.filter (fun e => match e with | .acquire => true | _ => false)).length

/-- Number of outbound HTTP calls (token POSTs and data calls) in a trace. -/
def countHttpCalls (evs : List ReqEvent) : Nat :=
  (evs.filter (fun e => match e with | .acquire => false | _ => true)).length

/-- Number of data-endpoint calls in a trace. -/
def countDataCalls (evs : List ReqEvent) : Nat :=
  (evs.filter (fun e => match e with | .dataCall _ _ => true | _ => false)).length

/-- The part of a trace that follows the primary data call (everything after
the first `dataCall` event). -/
def afterPrimary (evs : List ReqEvent) : List ReqEvent :=
  (evs.dropWhile (fun e => match e with | .dataCall _ _ => false | _ => true)).drop 1

/-- Number of token POSTs (authentication attempts) in a trace. -/
def countTokenPosts (evs : List ReqEvent) : Nat :=
  (evs.filter (fun e => match e with | .tokenPost _ => true | _ => false)).length

/-- Whatever the token endpoint answers, one `authenticate()` call acquires
one slot and POSTs once, with the response's status. -/
theorem authenticateStep_events (tok : Option String) (tr : TokenResponse) :
    (authenticateStep tok tr).2.1 = [.acquire, .tokenPost tr.status] := by
  unfold authenticateStep
  split_ifs <;> simp_all

/-- `authenticate()` succeeds (raises nothing) exactly on a 200, and then the
stored token is the granted one. -/
theorem authenticateStep_ok (tok : Option String) (tr : TokenResponse)
    (h : tr.status = 200) :
    authenticateStep tok tr = (some tr.accessToken, [.acquire, .tokenPost 200], none) := by
  unfold authenticateStep
  simp [h]

/-- Destructed form of `authenticateStep_events`: whichever pattern the
pipeline matched the call against, its event list is the acquire-then-POST
pair. -/
theorem authenticateStep_eq_events {tok : Option String} {tr : TokenResponse}
    {tok' : Option String} {ev : List ReqEvent} {err : Option ReqOutcome}
    (h : authenticateStep tok tr = (tok', ev, err)) :
    ev = [.acquire, .tokenPost tr.status] := by
  have h2 := authenticateStep_events tok tr
  rw [h] at h2
  exact h2

/-- The initial (token-refresh) phase of `_make_request` contributes either no
events or the acquire-then-POST pair of one `authenticate()` call. -/
theorem initialPhase_events (env : PipelineEnv) {tok' : Option String}
    {ev : List ReqEvent} {err : Option ReqOutcome}
    (h : (if env.tokenExpired then authenticateStep env.token0 (env.tokens 0)
          else (env.token0, ([], none))) = (tok', ev, err)) :
    ev = [] ∨ ev = [.acquire, .tokenPost (env.tokens 0).status] := by
  by_cases hexp : env.tokenExpired
  · rw [if_pos hexp] at h
    exact Or.inr (authenticateStep_eq_events h)
  · rw [if_neg hexp] at h
    simp only [Prod.mk.injEq] at h
    exact Or.inl h.2.1.symm

/-- No run of `_make_request` ever issues more than two data-endpoint
requests: the primary one and at most one retry. -/
theorem makeRequest_dataCalls_le_two (env : PipelineEnv) :
    countDataCalls (makeRequest env).2 ≤ 2 := by
  unfold makeRequest
  split
  · rename_i tok1 ev0 e heq
    rcases initialPhase_events env heq with rfl | rfl <;> simp [countDataCalls]
  · rename_i tok1 ev0 heq
    rcases hE : authenticateStep tok1 (env.tokens (reAuthIdx env)) with ⟨tok2, ev2, err2⟩
    obtain rfl := authenticateStep_eq_events hE
    rcases initialPhase_events env heq with rfl | rfl <;>
      (dsimp only
       split_ifs <;> rcases err2 with _ | e2 <;> simp [countDataCalls, hE])

/-- Full characterization of a `_make_request` run whose primary data call
answers 401, assuming the token refreshes involved succeed: one
re-authentication, then exactly one retried data call carrying the rebuilt
`Bearer` header, whose non-200 status surfaces as `APIError`. -/
theorem makeRequest_on_401 (env : PipelineEnv)
    (hinit : env.tokenExpired = true → (env.tokens 0).status = 200)
    (h401 : (env.resps 0).status = 401)
    (hre : (env.tokens (reAuthIdx env)).status = 200) :
    makeRequest env =
      ((if (env.resps 1).status = 200 then .ok (env.resps 1).body
        else .apiErr (env.resps 1).status),
       (if env.tokenExpired then [ReqEvent.acquire, ReqEvent.tokenPost 200] else []) ++
         [.acquire,
          .dataCall (bearerHeader (if env.tokenExpired then some (env.tokens 0).accessToken
                                   else env.token0)) 401,
          .acquire, .tokenPost 200,
          .dataCall (some ("Bearer " ++ (env.tokens (reAuthIdx env)).accessToken))
            (env.resps 1).status]) := by
  by_cases hexp : env.tokenExpired
  · have h0 := hinit hexp
    have hidx : reAuthIdx env = 1 := by simp [reAuthIdx, hexp]
    unfold makeRequest
    rw [if_pos hexp, authenticateStep_ok _ _ h0]
    dsimp only
    simp only [hidx] at hre ⊢
    rw [authenticateStep_ok _ _ hre]
    simp only [h401, hexp, Option.getD_some, if_true]
    split_ifs <;> simp_all
  · have hidx : reAuthIdx env = 0 := by simp [reAuthIdx, hexp]
    unfold makeRequest
    rw [if_neg hexp]
    dsimp only
    simp only [hidx] at hre ⊢
    rw [authenticateStep_ok _ _ hre]
    simp only [h401, Option.getD_some]
    simp only [hexp, Bool.false_eq_true, if_false]
    split_ifs <;> simp_all

/-- C1: a 401 on the primary data call triggers exactly one re-authentication
(one token POST after the primary call) and exactly one retried data call,
carrying the `Authorization` header rebuilt from the newly granted token; a
non-200 retry status surfaces as `APIError` carrying that status; and no run
of the pipeline, whatever the responses, issues more than two data calls. -/
theorem c1_401_exactly_one_retry :
    (∀ env : PipelineEnv, countDataCalls (makeRequest env).2 ≤ 2) ∧
    (∀ env : PipelineEnv,
      (env.tokenExpired = true → (env.tokens 0).status = 200) →
      (env.resps 0).status = 401 →
      (env.tokens (reAuthIdx env)).status = 200 →
      countTokenPosts (afterPrimary (makeRequest env).2) = 1 ∧
      countDataCalls (makeRequest env).2 = 2 ∧
      (makeRequest env).2.getLast? =
        some (.dataCall (some ("Bearer " ++ (env.tokens (reAuthIdx env)).accessToken))
          (env.resps 1).status) ∧
      ((env.resps 1).status ≠ 200 →
        (makeRequest env).1 = .apiErr (env.resps 1).status) ∧
      ((env.resps 1).status = 200 →
        (makeRequest env).1 = .ok (env.resps 1).body)) := by
  refine ⟨makeRequest_dataCalls_le_two, ?_⟩
  intro env hinit h401 hre
  rw [makeRequest_on_401 env hinit h401 hre]
  by_cases hexp : env.tokenExpired <;>
    simp [hexp, afterPrimary, countTokenPosts, countDataCalls]

/-- A concrete environment exercising the 401-retry path with an initially
expired token and a failing (503) retry. -/
def c1Env : PipelineEnv :=
  { tokenExpired := true
    token0 := none
    tokens := fun _ => { status := 200, accessToken := "fresh-token" }
    resps := fun i =>
      if i = 0 then { status := 401, body := "exp", retryAfter := none }
      else { status := 503, body := "down", retryAfter := none } }

/-- C1 witness: the single-retry characterization evaluated on `c1Env`. -/
theorem c1_401_exactly_one_retry_witness :
    ((c1Env.tokenExpired = true → (c1Env.tokens 0).status = 200) ∧
     (c1Env.resps 0).status = 401 ∧
     (c1Env.tokens (reAuthIdx c1Env)).status = 200) ∧
    (countTokenPosts (afterPrimary (makeRequest c1Env).2) = 1 ∧
     countDataCalls (makeRequest c1Env).2 = 2 ∧
     (makeRequest c1Env).2.getLast? =
       some (.dataCall (some ("Bearer " ++ (c1Env.tokens (reAuthIdx c1Env)).accessToken))
         (c1Env.resps 1).status) ∧
     ((c1Env.resps 1).status ≠ 200 →
       (makeRequest c1Env).1 = .apiErr (c1Env.resps 1).status) ∧
     ((c1Env.resps 1).status = 200 →
       (makeRequest c1Env).1 = .ok (c1Env.resps 1).body)) :=
  ⟨⟨by decide, by decide, by decide⟩,
   c1_401_exactly_one_retry.2 c1Env (by decide) (by decide) (by decide)⟩

/-- A concrete environment for the C2 counterexample: valid token at entry,
401 on the primary call, successful re-auth and retry. -/
def c2Env : PipelineEnv :=
  { tokenExpired := false
    token0 := some "tok0"
    tokens := fun _ => { status := 200, accessToken := "tok1" }
    resps := fun i =>
      if i = 0 then { status := 401, body := "exp", retryAfter := none }
      else { status := 200, body := "ranking-ok", retryAfter := none } }

/-- C2 counterexample: in the retried run on `c2Env` the pipeline issues three
outbound HTTP calls (primary data call, token POST, retried data call) but
acquires only two rate-limiter slots — so the acquire step is *not* invoked
before every outbound call: the retried data call (the trace's last event) is
issued directly after the re-auth's token POST with no `acquire` in between. -/
theorem c2_counterexample_retry_without_acquire :
    (makeRequest c2Env).2 =
      [.acquire, .dataCall (some "Bearer tok0") 401,
       .acquire, .tokenPost 200, .dataCall (some "Bearer tok1") 200] ∧
    countHttpCalls (makeRequest c2Env).2 = 3 ∧
    countAcquires (makeRequest c2Env).2 = 2 ∧
    ¬ (countHttpCalls (makeRequest c2Env).2 ≤ countAcquires (makeRequest c2Env).2) := by
  refine ⟨?_, ?_, ?_, ?_⟩ <;> decide

/-- C2 amended: `_wait_for_rate_limit` runs before the primary data call and
(inside `authenticate()`) before the re-auth's token POST, but the retried
data call itself is issued without a fresh acquire.  A retried logical call
entering with a valid token therefore performs exactly two acquisitions while
issuing three outbound HTTP calls; a logical call whose primary response is
not 401 (valid token at entry) acquires exactly once. -/
theorem c2_acquire_placement :
    (∀ env : PipelineEnv,
      env.tokenExpired = false →
      (env.resps 0).status = 401 →
      (env.tokens 0).status = 200 →
      countAcquires (makeRequest env).2 = 2 ∧
      countHttpCalls (makeRequest env).2 = 3 ∧
      afterPrimary (makeRequest env).2 =
        [.acquire, .tokenPost 200,
         .dataCall (some ("Bearer " ++ (env.tokens 0).accessToken)) (env.resps 1).status]) ∧
    (∀ env : PipelineEnv,
      env.tokenExpired = false →
      (env.resps 0).status ≠ 401 →
      countAcquires (makeRequest env).2 = 1) := by
  constructor
  · intro env hexp h401 hre
    have hidx : reAuthIdx env = 0 := by simp [reAuthIdx, hexp]
    have h := makeRequest_on_401 env (by simp [hexp]) h401 (by rw [hidx]; exact hre)
    rw [h]
    simp [hexp, hidx, afterPrimary, countAcquires, countHttpCalls]
  · intro env hexp h401
    unfold makeRequest
    rw [if_neg (by simp [hexp])]
    dsimp only
    split_ifs <;> simp_all [countAcquires]

/-- A concrete environment where the primary call simply succeeds: exactly one
acquisition. -/
def c2EnvNoRetry : PipelineEnv :=
  { tokenExpired := false
    token0 := some "tok0"
    tokens := fun _ => { status := 200, accessToken := "tok1" }
    resps := fun _ => { status := 200, body := "ranking-ok", retryAfter := none } }

/-- C2 amended witness: the acquire accounting evaluated on `c2Env` (retry)
and `c2EnvNoRetry` (no retry). -/
theorem c2_acquire_placement_witness :
    (c2Env.tokenExpired = false ∧ (c2Env.resps 0).status = 401 ∧
     (c2Env.tokens 0).status = 200 ∧
     c2EnvNoRetry.tokenExpired = false ∧ (c2EnvNoRetry.resps 0).status ≠ 401) ∧
    (countAcquires (makeRequest c2Env).2 = 2 ∧
     countHttpCalls (makeRequest c2Env).2 = 3 ∧
     afterPrimary (makeRequest c2Env).2 =
       [.acquire, .tokenPost 200,
        .dataCall (some ("Bearer " ++ (c2Env.tokens 0).accessToken)) (c2Env.resps 1).status]) ∧
    countAcquires (makeRequest c2EnvNoRetry).2 = 1 :=
  ⟨⟨by decide, by decide, by decide, by decide, by decide⟩,
   c2_acquire_placement.1 c2Env (by decide) (by decide) (by decide),
   c2_acquire_placement.2 c2EnvNoRetry (by decide) (by decide)⟩

/-! ## Concurrency: coalescing of concurrent `authenticate()` calls (C9)

`_make_request` checks `self._is_token_expired()` and, if so, awaits
`self.authenticate()` (client.py lines 166-168); `authenticate()` suspends at
its first `await` (`_wait_for_rate_limit`, line 119) before any token is
stored (line 131).  Under asyncio's cooperative scheduling the code between
two `await`s of one task runs atomically, and another task may run while the
first is suspended.  There is no lock anywhere in the client, so the
interleaving below is a faithful small-step model of two concurrent
`_make_request` callers: a task at `start` atomically reads the shared token
state and either enters `authenticate()` (suspending there) or skips it; a
task inside `authenticate()` later completes, storing a valid token. -/

/-- Program counter of one `_make_request` task, abstracted to the token
refresh: before the expiry check, suspended inside `authenticate()`, or past
the refresh step. -/
inductive TaskPc where
  | start
  | inAuth
  | past
deriving Repr, DecidableEq

/-- Shared-memory state of two concurrent `_make_request` callers: whether
`self.access_token` is currently valid, plus each task's program counter. -/
structure AuthRace where
  tokenValid : Bool
  pcA : TaskPc
  pcB : TaskPc
deriving Repr, DecidableEq

/-- One scheduler step: the atomic blocks of client.py lines 166-168 (expiry
check, entering `authenticate()` up to its first `await`) and lines 119-135
(completing `authenticate()`, storing the token). -/
inductive AuthStep : AuthRace → AuthRace → Prop where
  | enterA (s : AuthRace) (h1 : s.pcA = .start) (h2 : s.tokenValid = false) :
      AuthStep s { s with pcA := .inAuth }
  | skipA (s : AuthRace) (h1 : s.pcA = .start) (h2 : s.tokenValid = true) :
      AuthStep s { s with pcA := .past }
  | finishA (s : AuthRace) (h1 : s.pcA = .inAuth) :
      AuthStep s { tokenValid := true, pcA := .past, pcB := s.pcB }
  | enterB (s : AuthRace) (h1 : s.pcB = .start) (h2 : s.tokenValid = false) :
      AuthStep s { s with pcB := .inAuth }
  | skipB (s : AuthRace) (h1 : s.pcB = .start) (h2 : s.tokenValid = true) :
      AuthStep s { s with pcB := .past }
  | finishB (s : AuthRace) (h1 : s.pcB = .inAuth) :
      AuthStep s { tokenValid := true, pcA := s.pcA, pcB := .past }

/-- Both callers start before the expiry check with an expired token. -/
def authRaceInit : AuthRace := { tokenValid := false, pcA := .start, pcB := .start }

/-- C9: the claimed at-most-one-in-flight invariant fails — from the initial
state with an expired token, two scheduler steps (task A's expiry check and
entry into `authenticate()`, then task B's) reach a state where *both* tasks
are inside `authenticate()` simultaneously: the second caller issues its own
OAuth exchange instead of awaiting the first.  The client has no lock, so
nothing rules this interleaving out. -/
theorem c9_two_concurrent_authenticates :
    ∃ s : AuthRace, Relation.ReflTransGen AuthStep authRaceInit s ∧
      s.pcA = .inAuth ∧ s.pcB = .inAuth := by
  refine ⟨{ tokenValid := false, pcA := .inAuth, pcB := .inAuth }, ?_, rfl, rfl⟩
  have h1 : AuthStep authRaceInit { tokenValid := false, pcA := .inAuth, pcB := .start } :=
    AuthStep.enterA authRaceInit rfl rfl
  have h2 : AuthStep { tokenValid := false, pcA := .inAuth, pcB := .start }
      { tokenValid := false, pcA := .inAuth, pcB := .inAuth } :=
    AuthStep.enterB { tokenValid := false, pcA := .inAuth, pcB := .start } rfl rfl
  exact Relation.ReflTransGen.head h1 (Relation.ReflTransGen.head h2 Relation.ReflTransGen.refl)

/-! ## MD5 (`hashlib.md5`)

`CacheStrategy._hash_dict` feeds `str(sorted(data.items())).encode('utf-8')`
to `hashlib.md5` and keeps the first 8 characters of the hex digest.  The
algorithm below is real MD5 (RFC 1321) over byte lists, with 32-bit words
modelled as naturals reduced mod `2^32`; it agrees with `hashlib.md5` on
standard test vectors. -/

/-- `2^32`. -/
def m32 : Nat := 4294967296

/-- `2^32 - 1`, the all-ones 32-bit word (used for bitwise complement). -/
def mask32 : Nat := 4294967295

/-- 32-bit left rotation. -/
def rotl32 (x n : Nat) : Nat := ((x <<< n) % m32) ||| (x >>> (32 - n))

/-- The MD5 sine-derived constant table `K[i] = floor(2^32 * abs(sin(i+1)))`. -/
def md5K : List Nat := [
   3614090360, 3905402710, 606105819, 3250441966,
   4118548399, 1200080426, 2821735955, 4249261313,
   1770035416, 2336552879, 4294925233, 2304563134,
   1804603682, 4254626195, 2792965006, 1236535329,
   4129170786, 3225465664, 643717713, 3921069994,
   3593408605, 38016083, 3634488961, 3889429448,
   568446438, 3275163606, 4107603335, 1163531501,
   2850285829, 4243563512, 1735328473, 2368359562,
   4294588738, 2272392833, 1839030562, 4259657740,
   2763975236, 1272893353, 4139469664, 3200236656,
   681279174, 3936430074, 3572445317, 76029189,
   3654602809, 3873151461, 530742520, 3299628645,
   4096336452, 1126891415, 2878612391, 4237533241,
   1700485571, 2399980690, 4293915773, 2240044497,
   1873313359, 4264355552, 2734768916, 1309151649,
   4149444226, 3174756917, 718787259, 3951481745]

/-- The MD5 per-round left-rotation amounts. -/
def md5S : List Nat := [
   7, 12, 17, 22, 7, 12, 17, 22, 7, 12, 17, 22, 7, 12, 17, 22,
   5, 9, 14, 20, 5, 9, 14, 20, 5, 9, 14, 20, 5, 9, 14, 20,
   4, 11, 16, 23, 4, 11, 16, 23, 4, 11, 16, 23, 4, 11, 16, 23,
   6, 10, 15, 21, 6, 10, 15, 21, 6, 10, 15, 21, 6, 10, 15, 21]

/-- The four 32-bit state words of MD5. -/
structure MD5State where
  a : Nat
  b : Nat
  c : Nat
  d : Nat
deriving Repr, DecidableEq

/-- The RFC 1321 initialization vector. -/
def md5Init : MD5State := ⟨1732584193, 4023233417, 2562383102, 271733878⟩

/-- Group bytes into little-endian 32-bit words. -/
def leWords : List Nat → List Nat
  | b0 :: b1 :: b2 :: b3 :: rest =>
    (b0 + 256 * b1 + 65536 * b2 + 16777216 * b3) :: leWords rest
  | _ => []

/-- One of the 64 MD5 rounds on a 16-word message block. -/
def md5Round (msg : List Nat) (st : MD5State) (i : Nat) : MD5State :=
  let fg : Nat × Nat :=
    if i < 16 then ((st.b &&& st.c) ||| ((st.b ^^^ mask32) &&& st.d), i)
    else if i < 32 then ((st.d &&& st.b) ||| ((st.d ^^^ mask32) &&& st.c), (5 * i + 1) % 16)
    else if i < 48 then (st.b ^^^ st.c ^^^ st.d, (3 * i + 5) % 16)
    else (st.c ^^^ (st.b ||| (st.d ^^^ mask32)), (7 * i) % 16)
  let f := (fg.1 + st.a + md5K.getD i 0 + msg.getD fg.2 0) % m32
  ⟨st.d, (st.b + rotl32 f (md5S.getD i 0)) % m32, st.b, st.c⟩

/-- Process one 64-byte block. -/
def md5Chunk (st : MD5State) (chunk : List Nat) : MD5State :=
  let msg := leWords chunk
  let r := (List.range 64).foldl (md5Round msg) st
  ⟨(st.a + r.a) % m32, (st.b + r.b) % m32, (st.c + r.c) % m32, (st.d + r.d) % m32⟩

/-- Process a padded message 64 bytes at a time. -/
def md5Chunks (st : MD5State) (bytes : List Nat) : MD5State :=
  if h : bytes = [] then st
  else md5Chunks (md5Chunk st (bytes.take 64)) (bytes.drop 64)
termination_by bytes.length
decreasing_by
  have hpos : 0 < bytes.length := List.length_pos.mpr h
  simp [List.length_drop]
  omega

/-- The four little-endian bytes of a 32-bit word. -/
def leBytes4 (x : Nat) : List Nat :=
  [x % 256, x / 256 % 256, x / 65536 % 256, x / 16777216 % 256]

/-- The eight little-endian bytes of a 64-bit length field. -/
def leBytes8 (x : Nat) : List Nat :=
  leBytes4 (x % m32) ++ leBytes4 (x / m32 % m32)

/-- MD5 padding: `0x80`, zeros to 56 mod 64, then the bit length. -/
def md5Pad (msg : List Nat) : List Nat :=
  msg ++ [128] ++ List.replicate ((119 - msg.length % 64) % 64) 0 ++
    leBytes8 (msg.length * 8)

/-- The 16-byte MD5 digest of a byte list. -/
def md5Bytes (msg : List Nat) : List Nat :=
  let st := md5Chunks md5Init (md5Pad msg)
  leBytes4 st.a ++ leBytes4 st.b ++ leBytes4 st.c ++ leBytes4 st.d

/-- Lowercase hex digit. -/
def hexDigitChar (n : Nat) : Char :=
  if n < 10 then Char.ofNat (48 + n) else Char.ofNat (87 + n)

/-- Two lowercase hex characters of one byte. -/
def byteHex (b : Nat) : List Char :=
  [hexDigitChar (b / 16 % 16), hexDigitChar (b % 16)]

/-- The 32-character hex digest, as `hexdigest()` produces it. -/
def md5HexChars (msg : List Nat) : List Char :=
  (md5Bytes msg).flatMap byteHex

/-- UTF-8 encoding of one character (as `str.encode('utf-8')` does). -/
def utf8Encode (c : Char) : List Nat :=
  let n := c.toNat
  if n < 128 then [n]
  else if n < 2048 then [192 + n / 64, 128 + n % 64]
  else if n < 65536 then [224 + n / 4096, 128 + n / 64 % 64, 128 + n % 64]
  else [240 + n / 262144, 128 + n / 4096 % 64, 128 + n / 64 % 64, 128 + n % 64]

/-- UTF-8 bytes of a string. -/
def strBytes (s : String) : List Nat := s.data.flatMap utf8Encode

/-- The digest always has 16 bytes. -/
theorem md5Bytes_length (msg : List Nat) : (md5Bytes msg).length = 16 := by
  simp [md5Bytes, leBytes4]

/-- Flat-mapping two hex characters per byte doubles the length. -/
theorem flatMap_byteHex_length (l : List Nat) : (l.flatMap byteHex).length = 2 * l.length := by
  induction l with
  | nil => rfl
  | cons b t ih => simp [byteHex, ih]; omega

/-- The hex digest always has 32 characters. -/
theorem md5HexChars_length (msg : List Nat) : (md5HexChars msg).length = 32 := by
  rw [md5HexChars, flatMap_byteHex_length, md5Bytes_length]

/-! ## Cache strategy: `CacheStrategy` (src/cache/cache_strategy.py)

Filter dictionaries reaching `generate_ranking_key(**filters)` are modelled as
association lists of string keys and scalar values (the values tool handlers
pass as keyword arguments: ints, strings, booleans), in insertion order; a
genuine Python dict has no duplicate keys, which theorems assume as
`(filters.map Prod.fst).Nodup`. -/

/-- A filter value: the scalars that arrive as `**filters` keyword values. -/
inductive FVal where
  | int (n : ℤ)
  | str (s : String)
  | bool (b : Bool)
deriving Repr, DecidableEq

/-- Python `repr` of a filter value (string escaping elided: filter strings
contain no quotes or control characters). -/
def pyReprFVal : FVal → String
  | .int n => toString n
  | .str s => "'" ++ s ++ "'"
  | .bool true => "True"
  | .bool false => "False"

/-- Python `repr` of one `(key, value)` tuple of `data.items()`. -/
def pyReprPair (p : String × FVal) : String :=
  "('" ++ p.1 ++ "', " ++ pyReprFVal p.2 ++ ")"

/-- Python `str` of the list `sorted(data.items())`. -/
def pyReprItems (l : List (String × FVal)) : String :=
  "[" ++ String.intercalate ", " (l.map pyReprPair) ++ "]"

/-- Ordering of dict items by key, the order `sorted` uses (ties on the key
never occur in a dict, so the value component never gets compared). -/
def keyLE (a b : String × FVal) : Prop := a.1 ≤ b.1

instance : DecidableRel keyLE := fun a b => inferInstanceAs (Decidable (a.1 ≤ b.1))

instance : IsTotal (String × FVal) keyLE := ⟨fun a b => le_total a.1 b.1⟩

instance : IsTrans (String × FVal) keyLE := ⟨fun _ _ _ h1 h2 => le_trans h1 h2⟩

/-- `sorted(data.items())`. -/
def sortPairs (l : List (String × FVal)) : List (String × FVal) :=
  List.insertionSort keyLE l

/-- `CacheStrategy._hash_dict` (cache_strategy.py lines 214-219): sort the
items, take `str(...)`, UTF-8 encode, MD5, and keep the first 8 hex
characters. -/
def hashDict (l : List (String × FVal)) : String :=
  ⟨(md5HexChars (strBytes (pyReprItems (sortPairs l)))).take 8⟩

/-- Sorting by key is insensitive to the input order as long as keys are
distinct: two permuted key-value lists with duplicate-free keys sort to the
same list. -/
theorem sortPairs_eq_of_perm {l1 l2 : List (String × FVal)} (hp : l1.Perm l2)
    (hnd : (l1.map Prod.fst).Nodup) : sortPairs l1 = sortPairs l2 := by
  have hs1 : List.Sorted keyLE (sortPairs l1) := List.sorted_insertionSort keyLE l1
  have hs2 : List.Sorted keyLE (sortPairs l2) := List.sorted_insertionSort keyLE l2
  have hperm : (sortPairs l1).Perm (sortPairs l2) :=
    (List.perm_insertionSort keyLE l1).trans (hp.trans (List.perm_insertionSort keyLE l2).symm)
  have hnd1 : ((sortPairs l1).map Prod.fst).Nodup :=
    (((List.perm_insertionSort keyLE l1).map Prod.fst).symm).nodup_iff.mp hnd
  have hnd2 : ((sortPairs l2).map Prod.fst).Nodup :=
    ((hperm.map Prod.fst)).nodup_iff.mp hnd1
  have hlt1 : List.Sorted (fun a b => a.1 < b.1) (sortPairs l1) :=
    (hs1.and (List.pairwise_map.mp hnd1)).imp (fun h => lt_of_le_of_ne h.1 h.2)
  have hlt2 : List.Sorted (fun a b => a.1 < b.1) (sortPairs l2) :=
    (hs2.and (List.pairwise_map.mp hnd2)).imp (fun h => lt_of_le_of_ne h.1 h.2)
  exact @List.eq_of_perm_of_sorted _ (fun a b => a.1 < b.1)
    ⟨fun a b h1 h2 => absurd h2 (lt_asymm h1)⟩ _ _ hperm hlt1 hlt2

/-- A wall-clock instant as `CacheStrategy._is_market_hours` reads it off a
`datetime`: `weekday()` (Monday = 0 … Sunday = 6), `hour`, `minute`. -/
structure MarketTime where
  weekday : Nat
  hour : Nat
  minute : Nat
deriving Repr, DecidableEq

/-- `self.market_open_hour` (cache_strategy.py line 52). -/
def marketOpenHour : Nat := 9

/-- `self.market_close_hour` (line 53). -/
def marketCloseHour : Nat := 15

/-- `self.market_close_minute` (line 54). -/
def marketCloseMinute : Nat := 30

/-- `CacheStrategy._is_market_hours` (lines 198-212). -/
def isMarketHours (dt : MarketTime) : Bool :=
  if 5 ≤ dt.weekday then false
  else if dt.hour < marketOpenHour then false
  else if marketCloseHour < dt.hour then false
  else if dt.hour = marketCloseHour ∧ marketCloseMinute < dt.minute then false
  else true

/-- `self.default_ttls` (lines 43-49). -/
def defaultTtls : List (String × Nat) :=
  [("ranking", 60), ("high_low", 300), ("limit", 30),
   ("market_summary", 120), ("stock_price", 10)]

/-- `self.default_ttls.get(data_type, 300)` (line 185). -/
def baseTtl (dataType : String) : Nat := (defaultTtls.lookup dataType).getD 300

/-- `get_ttl_for_market_hours` (lines 146-148). -/
def ttlForMarketHours : Nat := 30

/-- `get_ttl_for_after_hours` (lines 150-152). -/
def ttlForAfterHours : Nat := 1800

/-- `CacheStrategy._get_dynamic_ttl` (lines 183-196), with the wall clock
passed explicitly instead of read from `datetime.now()`. -/
def getDynamicTtl (now : MarketTime) (dataType : String) : Nat :=
  if isMarketHours now then min (baseTtl dataType) ttlForMarketHours
  else max (baseTtl dataType) ttlForAfterHours

/-- The `CacheKey` dataclass (lines 13-33); the `prefix` field is called
`prefixStr` here. -/
structure CacheKey where
  prefixStr : String
  key : String
  ttl : Nat
  tags : List String
deriving Repr, DecidableEq

/-- `CacheKey.full_key` (lines 25-28). -/
def CacheKey.fullKey (ck : CacheKey) : String := ck.prefixStr ++ ":" ++ ck.key

/-- `CacheStrategy.generate_ranking_key` (lines 56-77): an empty filter dict
is falsy, so its hash segment is the literal `"no_filter"`; otherwise the
8-character `_hash_dict` value. -/
def generateRankingKey (now : MarketTime) (rankingType market : String)
    (count : Nat) (filters : List (String × FVal)) : CacheKey :=
  let filterHash := if filters.isEmpty then "no_filter" else hashDict filters
  { prefixStr := "ranking"
    key := rankingType ++ ":" ++ market ++ ":" ++ toString count ++ ":" ++ filterHash
    ttl := getDynamicTtl now "ranking"
    tags := ["market_data", "ranking", market.toLower] }

/-- The filter hash always has exactly 8 characters. -/
theorem hashDict_length (l : List (String × FVal)) : (hashDict l).length = 8 := by
  simp [hashDict, String.length, List.length_take, md5HexChars_length]

/-- The claim's reading of market hours: a weekday (Monday–Friday), with the
time of day between 09:00 and 15:30, the close minute included. -/
def marketHoursSpec (dt : MarketTime) : Prop :=
  dt.weekday < 5 ∧ 540 ≤ 60 * dt.hour + dt.minute ∧ 60 * dt.hour + dt.minute ≤ 930

/-- C5: `_get_dynamic_ttl` equals `min(base, 30)` within market hours and
`max(base, 1800)` outside them, where the code's market-hours test agrees
with the claim's 09:00–15:30-weekday reading (for real minute values);
consequently a ranking query's TTL is at most 30 during market hours and at
least 1800 outside them. -/
theorem c5_dynamic_ttl_policy :
    (∀ dt : MarketTime, dt.minute ≤ 59 →
      (isMarketHours dt = true ↔ marketHoursSpec dt)) ∧
    (∀ (dt : MarketTime) (ty : String) (b : Nat), (ty, b) ∈ defaultTtls →
      getDynamicTtl dt ty = if isMarketHours dt then min b 30 else max b 1800) ∧
    (∀ dt : MarketTime, dt.minute ≤ 59 →
      (marketHoursSpec dt → getDynamicTtl dt "ranking" ≤ 30) ∧
      (¬ marketHoursSpec dt → 1800 ≤ getDynamicTtl dt "ranking")) := by
  have hmh : ∀ dt : MarketTime, dt.minute ≤ 59 →
      (isMarketHours dt = true ↔ marketHoursSpec dt) := by
    intro dt hm
    unfold isMarketHours marketHoursSpec marketOpenHour marketCloseHour marketCloseMinute
    split_ifs <;> simp_all <;> omega
  have hbase : baseTtl "ranking" = 60 := by with_unfolding_all rfl
  refine ⟨hmh, ?_, ?_⟩
  · intro dt ty b hmem
    have h1 : baseTtl "high_low" = 300 := by with_unfolding_all rfl
    have h2 : baseTtl "limit" = 30 := by with_unfolding_all rfl
    have h3 : baseTtl "market_summary" = 120 := by with_unfolding_all rfl
    have h4 : baseTtl "stock_price" = 10 := by with_unfolding_all rfl
    fin_cases hmem <;>
      simp [getDynamicTtl, ttlForMarketHours, ttlForAfterHours, hbase, h1, h2, h3, h4]
  · intro dt hm
    constructor
    · intro hspec
      have h : isMarketHours dt = true := (hmh dt hm).mpr hspec
      simp [getDynamicTtl, h, hbase, ttlForMarketHours]
    · intro hspec
      have h : isMarketHours dt = false := by
        cases hb : isMarketHours dt
        · rfl
        · exact absurd ((hmh dt hm).mp hb) hspec
      simp [getDynamicTtl, h, hbase, ttlForAfterHours]

/-- C5 witness: the TTL policy evaluated at Wednesday 10:00 (market hours)
and Saturday 10:00 (closed), for the ranking TTL row. -/
theorem c5_dynamic_ttl_policy_witness :
    ((10 : Nat) ≤ 59 ∧ ("ranking", 60) ∈ defaultTtls) ∧
    (isMarketHours ⟨2, 10, 10⟩ = true ↔ marketHoursSpec ⟨2, 10, 10⟩) ∧
    (getDynamicTtl ⟨5, 10, 10⟩ "ranking"
      = if isMarketHours ⟨5, 10, 10⟩ then min 60 30 else max 60 1800) ∧
    ((marketHoursSpec ⟨2, 10, 10⟩ → getDynamicTtl ⟨2, 10, 10⟩ "ranking" ≤ 30) ∧
     (¬ marketHoursSpec ⟨2, 10, 10⟩ → 1800 ≤ getDynamicTtl ⟨2, 10, 10⟩ "ranking")) :=
  ⟨⟨by decide, by decide⟩,
   c5_dynamic_ttl_policy.1 ⟨2, 10, 10⟩ (by decide),
   c5_dynamic_ttl_policy.2.1 ⟨5, 10, 10⟩ "ranking" 60 (by decide),
   c5_dynamic_ttl_policy.2.2 ⟨2, 10, 10⟩ (by decide)⟩

/-- C6: ranking cache keys are deterministic in the filters — two filter
dicts with the same key-value pairs (in any insertion order, keys being
distinct as in any dict) produce the same `CacheKey`, the same 8-character
hash suffix included, because `_hash_dict` sorts the items before hashing. -/
theorem c6_ranking_key_deterministic (now : MarketTime) (rt mk : String)
    (cnt : Nat) (f1 f2 : List (String × FVal)) (hp : f1.Perm f2)
    (hnd : (f1.map Prod.fst).Nodup) :
    generateRankingKey now rt mk cnt f1 = generateRankingKey now rt mk cnt f2 ∧
    hashDict f1 = hashDict f2 ∧ (hashDict f1).length = 8 := by
  have hhash : hashDict f1 = hashDict f2 := by
    unfold hashDict
    rw [sortPairs_eq_of_perm hp hnd]
  have hempty : f1.isEmpty = f2.isEmpty := by
    have hl := hp.length_eq
    cases f1 <;> cases f2 <;> simp_all
  refine ⟨?_, hhash, hashDict_length f1⟩
  unfold generateRankingKey
  rw [hempty, hhash]

/-- C6 witness: two insertion orders of the same two filters. -/
theorem c6_ranking_key_deterministic_witness :
    ([("min_price", FVal.int 1000), ("min_volume", FVal.int 50)].Perm
       [("min_volume", FVal.int 50), ("min_price", FVal.int 1000)] ∧
     ([("min_price", FVal.int 1000), ("min_volume", FVal.int 50)].map Prod.fst).Nodup) ∧
    (generateRankingKey ⟨2, 10, 10⟩ "TOP_GAINERS" "KOSPI" 20
        [("min_price", FVal.int 1000), ("min_volume", FVal.int 50)]
      = generateRankingKey ⟨2, 10, 10⟩ "TOP_GAINERS" "KOSPI" 20
        [("min_volume", FVal.int 50), ("min_price", FVal.int 1000)] ∧
     hashDict [("min_price", FVal.int 1000), ("min_volume", FVal.int 50)]
      = hashDict [("min_volume", FVal.int 50), ("min_price", FVal.int 1000)] ∧
     (hashDict [("min_price", FVal.int 1000), ("min_volume", FVal.int 50)]).length = 8) :=
  ⟨⟨by decide, by decide⟩,
   c6_ranking_key_deterministic ⟨2, 10, 10⟩ "TOP_GAINERS" "KOSPI" 20
     [("min_price", FVal.int 1000), ("min_volume", FVal.int 50)]
     [("min_volume", FVal.int 50), ("min_price", FVal.int 1000)]
     (by decide) (by decide)⟩

/-- C10: with no extra filters the ranking key's final segment is the literal
`no_filter`, giving the shape `ranking:<type>:<market>:<count>:no_filter`;
with at least one filter the final segment is the 8-character hash (which can
never collide with the 9-character literal `no_filter`). -/
theorem c10_no_filter_literal :
    (∀ (now : MarketTime) (rt mk : String) (cnt : Nat),
      (generateRankingKey now rt mk cnt []).fullKey
        = "ranking" ++ ":" ++ rt ++ ":" ++ mk ++ ":" ++ toString cnt ++ ":" ++ "no_filter") ∧
    (∀ (now : MarketTime) (rt mk : String) (cnt : Nat)
       (filters : List (String × FVal)), filters ≠ [] →
      (generateRankingKey now rt mk cnt filters).fullKey
        = "ranking" ++ ":" ++ rt ++ ":" ++ mk ++ ":" ++ toString cnt ++ ":" ++
            hashDict filters ∧
      (hashDict filters).length = 8 ∧ hashDict filters ≠ "no_filter") := by
  constructor
  · intro now rt mk cnt
    simp [generateRankingKey, CacheKey.fullKey, String.append_assoc]
  · intro now rt mk cnt filters hne
    have hlen := hashDict_length filters
    refine ⟨?_, hlen, ?_⟩
    · have hempty : filters.isEmpty = false := by
        cases filters
        · exact absurd rfl hne
        · rfl
      simp [generateRankingKey, CacheKey.fullKey, hempty, String.append_assoc]
    · intro h
      rw [h] at hlen
      simp [String.length] at hlen

/-- C10 witness: the key shapes evaluated on an empty and a one-entry filter
dict. -/
theorem c10_no_filter_literal_witness :
    ([("min_price", FVal.int 1000)] ≠ ([] : List (String × FVal))) ∧
    (generateRankingKey ⟨2, 10, 10⟩ "TOP_GAINERS" "KOSPI" 20 []).fullKey
      = "ranking" ++ ":" ++ "TOP_GAINERS" ++ ":" ++ "KOSPI" ++ ":" ++ toString (20 : Nat)
          ++ ":" ++ "no_filter" ∧
    ((generateRankingKey ⟨2, 10, 10⟩ "TOP_GAINERS" "KOSPI" 20
        [("min_price", FVal.int 1000)]).fullKey
      = "ranking" ++ ":" ++ "TOP_GAINERS" ++ ":" ++ "KOSPI" ++ ":" ++ toString (20 : Nat)
          ++ ":" ++ hashDict [("min_price", FVal.int 1000)] ∧
     (hashDict [("min_price", FVal.int 1000)]).length = 8 ∧
     hashDict [("min_price", FVal.int 1000)] ≠ "no_filter") :=
  ⟨by decide,
   c10_no_filter_literal.1 ⟨2, 10, 10⟩ "TOP_GAINERS" "KOSPI" 20,
   c10_no_filter_literal.2 ⟨2, 10, 10⟩ "TOP_GAINERS" "KOSPI" 20
     [("min_price", FVal.int 1000)] (by decide)⟩


inductive PyVal where
  | none
  | bool (b : Bool)
  | int (n : ℤ)
  | str (s : String)
  | list (xs : List PyVal)
  | dict (ps : List (String × PyVal))

def digitChar (d : Nat) : Char := Char.ofNat (48 + d)

def natChars (n : Nat) : List Char :=
  if n < 10 then [digitChar n]
  else natChars (n / 10) ++ [digitChar (n % 10)]
termination_by n
decreasing_by omega

def intChars (n : ℤ) : List Char :=
  if n < 0 then '-' :: natChars n.natAbs else natChars n.natAbs

def hex4 (n : Nat) : List Char :=
  [hexDigitChar (n / 4096 % 16), hexDigitChar (n / 256 % 16),
   hexDigitChar (n / 16 % 16), hexDigitChar (n % 16)]

def escChar (c : Char) : List Char :=
  if c = '"' then ['\\', '"']
  else if c = '\\' then ['\\', '\\']
  else if c = Char.ofNat 8 then ['\\', 'b']
  else if c = Char.ofNat 12 then ['\\', 'f']
  else if c = '\n' then ['\\', 'n']
  else if c = '\r' then ['\\', 'r']
  else if c = '\t' then ['\\', 't']
  else if 32 ≤ c.toNat ∧ c.toNat ≤ 126 then [c]
  else if c.toNat < 65536 then '\\' :: 'u' :: hex4 c.toNat
  else
    ('\\' :: 'u' :: hex4 (55296 + (c.toNat - 65536) / 1024)) ++
      ('\\' :: 'u' :: hex4 (56320 + (c.toNat - 65536) % 1024))

def encStrChars (s : String) : List Char :=
  '"' :: (s.data.flatMap escChar ++ ['"'])

mutual
def encVal : PyVal → List Char
  | .none => ['n', 'u', 'l', 'l']
  | .bool false => ['f', 'a', 'l', 's', 'e']
  | .bool true => ['t', 'r', 'u', 'e']
  | .int n => intChars n
  | .str s => encStrChars s
  | .list [] => ['[', ']']
  | .list (x :: xs) => '[' :: (encItems x xs ++ [']'])
  | .dict [] => ['\x7b', '\x7d']
  | .dict (p :: ps) => '\x7b' :: (encMembers p ps ++ ['\x7d'])
termination_by v => sizeOf v
def encItems : PyVal → List PyVal → List Char
  | x, [] => encVal x
  | x, y :: ys => encVal x ++ ',' :: ' ' :: encItems y ys
termination_by x xs => 1 + sizeOf x + sizeOf xs
def encMembers : (String × PyVal) → List (String × PyVal) → List Char
  | (k, v), [] => encStrChars k ++ ':' :: ' ' :: encVal v
  | (k, v), p :: ps => encStrChars k ++ ':' :: ' ' :: encVal v ++ ',' :: ' ' :: encMembers p ps
termination_by p ps => 1 + sizeOf p + sizeOf ps
end

def jsonDumps (v : PyVal) : String := ⟨encVal v⟩

def isWsChar (c : Char) : Bool := c = ' ' || c = '\t' || c = '\n' || c = '\r'

def skipWs : List Char → List Char
  | c :: cs => if isWsChar c then skipWs cs else c :: cs
  | [] => []

def hexVal (c : Char) : Option Nat :=
  if 48 ≤ c.toNat ∧ c.toNat ≤ 57 then some (c.toNat - 48)
  else if 97 ≤ c.toNat ∧ c.toNat ≤ 102 then some (c.toNat - 87)
  else if 65 ≤ c.toNat ∧ c.toNat ≤ 70 then some (c.toNat - 55)
  else none

def hex4Val (a b c d : Char) : Option Nat :=
  match hexVal a, hexVal b, hexVal c, hexVal d with
  | some va, some vb, some vc, some vd => some (((va * 16 + vb) * 16 + vc) * 16 + vd)
  | _, _, _, _ => Option.none

def escMap : Char → Option Char
  | '"' => some '"'
  | '\\' => some '\\'
  | '/' => some '/'
  | 'b' => some (Char.ofNat 8)
  | 'f' => some (Char.ofNat 12)
  | 'n' => some '\n'
  | 'r' => some '\r'
  | 't' => some '\t'
  | _ => Option.none

def parseStrCharsF : Nat → List Char → Option (List Char × List Char)
  | 0, _ => Option.none
  | fl + 1, cs =>
    match cs with
    | [] => Option.none
    | c :: rest =>
      if c = '"' then some ([], rest)
      else if c = '\\' then
        match rest with
        | 'u' :: a :: b :: d :: e :: rest1 =>
          match hex4Val a b d e with
          | Option.none => Option.none
          | some n =>
            if 55296 ≤ n ∧ n ≤ 56319 then
              match rest1 with
              | '\\' :: 'u' :: f :: g :: h :: i :: rest2 =>
                match hex4Val f g h i with
                | some m =>
                  if 56320 ≤ m ∧ m ≤ 57343 then
                    (parseStrCharsF fl rest2).map
                      (fun p => (Char.ofNat (65536 + (n - 55296) * 1024 + (m - 56320)) :: p.1, p.2))
                  else
                    (parseStrCharsF fl ('\\' :: 'u' :: f :: g :: h :: i :: rest2)).map
                      (fun p => (Char.ofNat n :: p.1, p.2))
                | Option.none =>
                  (parseStrCharsF fl ('\\' :: 'u' :: f :: g :: h :: i :: rest2)).map
                    (fun p => (Char.ofNat n :: p.1, p.2))
              | _ => (parseStrCharsF fl rest1).map (fun p => (Char.ofNat n :: p.1, p.2))
            else (parseStrCharsF fl rest1).map (fun p => (Char.ofNat n :: p.1, p.2))
        | e :: rest1 =>
          match escMap e with
          | some ch => (parseStrCharsF fl rest1).map (fun p => (ch :: p.1, p.2))
          | Option.none => Option.none
        | [] => Option.none
      else if c.toNat < 32 then Option.none
      else (parseStrCharsF fl rest).map (fun p => (c :: p.1, p.2))

def parseStrChars (cs : List Char) : Option (List Char × List Char) :=
  parseStrCharsF cs.length cs

def digitsToNat (ds : List Char) : Nat :=
  ds.foldl (fun a c => 10 * a + (c.toNat - 48)) 0

def parseNat (cs : List Char) : Option (Nat × List Char) :=
  let ds := cs.takeWhile (fun c => c.isDigit)
  let rest := cs.dropWhile (fun c => c.isDigit)
  if ds.isEmpty then Option.none
  else
    match rest with
    | [] => some (digitsToNat ds, [])
    | c :: _ =>
      if c = '.' ∨ c = 'e' ∨ c = 'E' then Option.none
      else some (digitsToNat ds, rest)

def numDelim : List Char → Bool
  | [] => true
  | c :: _ => !(c.isDigit || c = '.' || c = 'e' || c = 'E')

def parseNum (cs : List Char) : Option (PyVal × List Char) :=
  match cs with
  | '-' :: rest => (parseNat rest).map (fun p => (.int (-(p.1 : ℤ)), p.2))
  | _ => (parseNat cs).map (fun p => (.int (p.1 : ℤ), p.2))

mutual
def parseVal : Nat → List Char → Option (PyVal × List Char)
  | 0, _ => Option.none
  | fuel + 1, cs =>
    match skipWs cs with
    | [] => Option.none
    | c :: r =>
      if c = 'n' then
        match r with
        | 'u' :: 'l' :: 'l' :: r2 => some (.none, r2)
        | _ => Option.none
      else if c = 't' then
        match r with
        | 'r' :: 'u' :: 'e' :: r2 => some (.bool true, r2)
        | _ => Option.none
      else if c = 'f' then
        match r with
        | 'a' :: 'l' :: 's' :: 'e' :: r2 => some (.bool false, r2)
        | _ => Option.none
      else if c = '"' then (parseStrChars r).map (fun p => (.str ⟨p.1⟩, p.2))
      else if c = '[' then
        match skipWs r with
        | c2 :: r2 =>
          if c2 = ']' then some (.list [], r2)
          else (parseElems fuel (c2 :: r2)).map (fun p => (.list p.1, p.2))
        | [] => Option.none
      else if c = '\x7b' then
        match skipWs r with
        | c2 :: r2 =>
          if c2 = '\x7d' then some (.dict [], r2)
          else (parseMembers fuel (c2 :: r2)).map (fun p => (.dict p.1, p.2))
        | [] => Option.none
      else if c = '-' ∨ c.isDigit then parseNum (c :: r)
      else Option.none
def parseElems : Nat → List Char → Option (List PyVal × List Char)
  | 0, _ => Option.none
  | fuel + 1, cs =>
    match parseVal fuel cs with
    | Option.none => Option.none
    | some (v, r) =>
      match skipWs r with
      | c :: r2 =>
        if c = ',' then (parseElems fuel (skipWs r2)).map (fun p => (v :: p.1, p.2))
        else if c = ']' then some ([v], r2)
        else Option.none
      | [] => Option.none
def parseMembers : Nat → List Char → Option (List (String × PyVal) × List Char)
  | 0, _ => Option.none
  | fuel + 1, cs =>
    match skipWs cs with
    | '"' :: r =>
      match parseStrChars r with
      | Option.none => Option.none
      | some (k, r1) =>
        match skipWs r1 with
        | ':' :: r2 =>
          match parseVal fuel (skipWs r2) with
          | Option.none => Option.none
          | some (v, r3) =>
            match skipWs r3 with
            | c :: r4 =>
              if c = ',' then
                (parseMembers fuel (skipWs r4)).map (fun p => ((⟨k⟩, v) :: p.1, p.2))
              else if c = '\x7d' then some ([(⟨k⟩, v)], r4)
              else Option.none
            | [] => Option.none
        | _ => Option.none
    | _ => Option.none
end

def jsonLoads (s : String) : Option PyVal :=
  match parseVal (s.data.length + 1) s.data with
  | some (v, rest) => if (skipWs rest).isEmpty then some v else Option.none
  | Option.none => Option.none



theorem natChars_ne_nil (n : Nat) : natChars n ≠ [] := by
  rw [natChars]
  split <;> simp

theorem natChars_digits (n : Nat) : ∀ c ∈ natChars n, c.isDigit = true := by
  induction n using Nat.strong_induction_on with
  | _ n ih =>
    rw [natChars]
    split
    · intro c hc
      rw [List.mem_singleton] at hc
      subst hc
      rename_i h
      unfold digitChar
      interval_cases n <;> decide
    · intro c hc
      rw [List.mem_append] at hc
      rcases hc with hc | hc
      · rename_i h
        exact ih (n / 10) (by omega) c hc
      · rw [List.mem_singleton] at hc
        subst hc
        have : n % 10 < 10 := Nat.mod_lt _ (by omega)
        unfold digitChar
        interval_cases h : (n % 10) <;> decide

theorem digitChar_toNat (d : Nat) (h : d < 10) : (digitChar d).toNat = 48 + d := by
  unfold digitChar
  interval_cases d <;> decide

theorem digitsToNat_append_one (l : List Char) (c : Char) :
    digitsToNat (l ++ [c]) = 10 * digitsToNat l + (c.toNat - 48) := by
  unfold digitsToNat
  rw [List.foldl_append]
  rfl

theorem digitsToNat_natChars (n : Nat) : digitsToNat (natChars n) = n := by
  induction n using Nat.strong_induction_on with
  | _ n ih =>
    rw [natChars]
    split
    · rename_i h
      unfold digitsToNat
      simp [digitChar_toNat n h]
    · rename_i h
      rw [digitsToNat_append_one, ih (n / 10) (by omega),
          digitChar_toNat (n % 10) (Nat.mod_lt _ (by omega))]
      omega

theorem takeWhile_digits (ds rest : List Char) (hds : ∀ c ∈ ds, c.isDigit = true)
    (hrest : numDelim rest = true) :
    (ds ++ rest).takeWhile (fun c => c.isDigit) = ds ∧
    (ds ++ rest).dropWhile (fun c => c.isDigit) = rest := by
  induction ds with
  | nil =>
    cases rest with
    | nil => simp
    | cons c t =>
      simp only [numDelim, Bool.not_eq_true', Bool.or_eq_false_iff] at hrest
      simp [List.takeWhile, List.dropWhile, hrest.1.1.1]
  | cons d ds ih =>
    have hd : d.isDigit = true := hds d (by simp)
    have := ih (fun c hc => hds c (by simp [hc]))
    simp [List.takeWhile, List.dropWhile, hd, this.1, this.2]

theorem parseNat_natChars (n : Nat) (rest : List Char) (hrest : numDelim rest = true) :
    parseNat (natChars n ++ rest) = some (n, rest) := by
  obtain ⟨ht, hd⟩ := takeWhile_digits (natChars n) rest (natChars_digits n) hrest
  unfold parseNat
  simp only [ht, hd]
  rw [if_neg (by simp [natChars_ne_nil])]
  cases rest with
  | nil => simp [digitsToNat_natChars]
  | cons c t =>
    have h1 : ¬ (c = '.' ∨ c = 'e' ∨ c = 'E') := by
      simp only [numDelim, Bool.not_eq_true', Bool.or_eq_false_iff,
        decide_eq_false_iff_not] at hrest
      tauto
    simp only [if_neg h1, digitsToNat_natChars]

theorem natChars_head (n : Nat) :
    ∃ c t, natChars n = c :: t ∧ c.isDigit = true := by
  rcases hh : natChars n with _ | ⟨c, t⟩
  · exact absurd hh (natChars_ne_nil n)
  · exact ⟨c, t, rfl, natChars_digits n c (hh ▸ List.mem_cons_self c t)⟩

theorem digit_ne_minus {c : Char} (h : c.isDigit = true) : c ≠ '-' := by
  intro hc
  rw [hc] at h
  exact absurd h (by decide)

theorem parseNum_minus (cs : List Char) :
    parseNum ('-' :: cs) = (parseNat cs).map (fun p => (PyVal.int (-(p.1 : ℤ)), p.2)) := rfl

theorem parseNum_not_minus {c : Char} (hne : c ≠ '-') (cs : List Char) :
    parseNum (c :: cs) = (parseNat (c :: cs)).map (fun p => (PyVal.int (p.1 : ℤ), p.2)) := by
  unfold parseNum
  split
  · rename_i heq
    injection heq with h1 h2
    exact absurd h1 hne
  · rfl

theorem parseNum_intChars (n : ℤ) (rest : List Char) (hrest : numDelim rest = true) :
    parseNum (intChars n ++ rest) = some (.int n, rest) := by
  unfold intChars
  split
  · rename_i hneg
    rw [List.cons_append, parseNum_minus, parseNat_natChars n.natAbs rest hrest]
    simp only [Option.map_some']
    have hval : -(n.natAbs : ℤ) = n := by omega
    rw [hval]
  · rename_i hpos
    obtain ⟨c, t, hct, hcd⟩ := natChars_head n.natAbs
    have hne : c ≠ '-' := digit_ne_minus hcd
    rw [hct, List.cons_append, parseNum_not_minus hne]
    have hp : parseNat (c :: (t ++ rest)) = some (n.natAbs, rest) := by
      have := parseNat_natChars n.natAbs rest hrest
      rwa [hct, List.cons_append] at this
    rw [hp]
    simp only [Option.map_some']
    have hval : ((n.natAbs : ℤ)) = n := by omega
    rw [hval]

theorem hexVal_hexDigitChar (d : Nat) (h : d < 16) : hexVal (hexDigitChar d) = some d := by
  interval_cases d <;> decide

theorem hex4Val_hex4 (n : Nat) (h : n < 65536) :
    hex4Val (hexDigitChar (n / 4096 % 16)) (hexDigitChar (n / 256 % 16))
      (hexDigitChar (n / 16 % 16)) (hexDigitChar (n % 16)) = some n := by
  unfold hex4Val
  rw [hexVal_hexDigitChar _ (Nat.mod_lt _ (by omega)),
      hexVal_hexDigitChar _ (Nat.mod_lt _ (by omega)),
      hexVal_hexDigitChar _ (Nat.mod_lt _ (by omega)),
      hexVal_hexDigitChar _ (Nat.mod_lt _ (by omega))]
  simp only [Option.some.injEq]
  omega

theorem char_valid_range (c : Char) :
    c.toNat < 55296 ∨ (57343 < c.toNat ∧ c.toNat < 1114112) := by
  have h := c.valid
  unfold UInt32.isValidChar at h
  exact h

theorem parseStrCharsF_named (fl : Nat) (e ch : Char) (rest : List Char)
    (he : escMap e = some ch) (hne : e ≠ 'u') :
    parseStrCharsF (fl + 1) ('\\' :: e :: rest)
      = (parseStrCharsF fl rest).map (fun p => (ch :: p.1, p.2)) := by
  simp only [parseStrCharsF]
  rw [if_neg (by decide)]
  simp only [if_true]
  split
  · rename_i a b d e2 rest1 heq
    injection heq with hu _
    exact absurd hu hne
  · rename_i e2 rest1 heq
    injection heq with hh1 hh2
    subst hh1
    subst hh2
    rw [he]
  · rename_i heq
    exact absurd heq (by simp)

theorem escChar_plain {c : Char} (h1 : ¬ c = '"') (h2 : ¬ c = '\\')
    (h3 : ¬ c = Char.ofNat 8) (h4 : ¬ c = Char.ofNat 12) (h5 : ¬ c = '\n')
    (h6 : ¬ c = Char.ofNat 13) (h7 : ¬ c = '\t')
    (h8 : 32 ≤ c.toNat ∧ c.toNat ≤ 126) : escChar c = [c] := by
  unfold escChar
  rw [if_neg h1, if_neg h2, if_neg h3, if_neg h4, if_neg h5, if_neg h6, if_neg h7, if_pos h8]

theorem escChar_u_single {c : Char} (h1 : ¬ c = '"') (h2 : ¬ c = '\\')
    (h3 : ¬ c = Char.ofNat 8) (h4 : ¬ c = Char.ofNat 12) (h5 : ¬ c = '\n')
    (h6 : ¬ c = Char.ofNat 13) (h7 : ¬ c = '\t')
    (h8 : ¬ (32 ≤ c.toNat ∧ c.toNat ≤ 126)) (h9 : c.toNat < 65536) :
    escChar c = '\\' :: 'u' :: hex4 c.toNat := by
  unfold escChar
  rw [if_neg h1, if_neg h2, if_neg h3, if_neg h4, if_neg h5, if_neg h6, if_neg h7,
      if_neg h8, if_pos h9]

theorem escChar_u_pair {c : Char} (h1 : ¬ c = '"') (h2 : ¬ c = '\\')
    (h3 : ¬ c = Char.ofNat 8) (h4 : ¬ c = Char.ofNat 12) (h5 : ¬ c = '\n')
    (h6 : ¬ c = Char.ofNat 13) (h7 : ¬ c = '\t')
    (h8 : ¬ (32 ≤ c.toNat ∧ c.toNat ≤ 126)) (h9 : ¬ c.toNat < 65536) :
    escChar c = ('\\' :: 'u' :: hex4 (55296 + (c.toNat - 65536) / 1024)) ++
      ('\\' :: 'u' :: hex4 (56320 + (c.toNat - 65536) % 1024)) := by
  unfold escChar
  rw [if_neg h1, if_neg h2, if_neg h3, if_neg h4, if_neg h5, if_neg h6, if_neg h7,
      if_neg h8, if_neg h9]

theorem parseStrCharsF_plainStep (fl : Nat) (c : Char) (rest : List Char)
    (h1 : ¬ c = '"') (h2 : ¬ c = '\\') (hc : ¬ c.toNat < 32) :
    parseStrCharsF (fl + 1) (c :: rest)
      = (parseStrCharsF fl rest).map (fun p => (c :: p.1, p.2)) := by
  simp only [parseStrCharsF]
  rw [if_neg h1, if_neg h2, if_neg hc]

theorem parseStrCharsF_uGenSingle (fl : Nat) (a b d e : Char) (rest : List Char)
    (n : Nat) (ha : hex4Val a b d e = some n)
    (hn : ¬ (55296 ≤ n ∧ n ≤ 56319)) :
    parseStrCharsF (fl + 1) ('\\' :: 'u' :: a :: b :: d :: e :: rest)
      = (parseStrCharsF fl rest).map (fun p => (Char.ofNat n :: p.1, p.2)) := by
  simp only [parseStrCharsF]
  rw [if_neg (by decide)]
  simp only [if_true]
  rw [ha]
  simp only
  rw [if_neg hn]

theorem parseStrCharsF_uGenPair (fl : Nat) (a b d e f g h i : Char)
    (rest : List Char) (n m : Nat)
    (ha : hex4Val a b d e = some n) (hn : 55296 ≤ n ∧ n ≤ 56319)
    (hb : hex4Val f g h i = some m) (hm : 56320 ≤ m ∧ m ≤ 57343) :
    parseStrCharsF (fl + 1)
        ('\\' :: 'u' :: a :: b :: d :: e :: '\\' :: 'u' :: f :: g :: h :: i :: rest)
      = (parseStrCharsF fl rest).map
          (fun p => (Char.ofNat (65536 + (n - 55296) * 1024 + (m - 56320)) :: p.1, p.2)) := by
  simp only [parseStrCharsF]
  rw [if_neg (by decide)]
  simp only [if_true]
  rw [ha]
  simp only
  rw [if_pos hn]
  rw [hb]
  simp only
  rw [if_pos hm]

theorem parseStrCharsF_uSingle (fl : Nat) (c : Char) (rest : List Char)
    (h9 : c.toNat < 65536) :
    parseStrCharsF (fl + 1) (('\\' :: 'u' :: hex4 c.toNat) ++ rest)
      = (parseStrCharsF fl rest).map (fun p => (Char.ofNat c.toNat :: p.1, p.2)) := by
  have hsurr : ¬ (55296 ≤ c.toNat ∧ c.toNat ≤ 56319) := by
    rcases char_valid_range c with h | h <;> omega
  simp only [hex4, List.cons_append, List.nil_append]
  exact parseStrCharsF_uGenSingle fl _ _ _ _ rest c.toNat
    (hex4Val_hex4 c.toNat h9) hsurr

theorem parseStrCharsF_uPair (fl : Nat) (c : Char) (rest : List Char)
    (h9 : ¬ c.toNat < 65536) :
    parseStrCharsF (fl + 1)
        ((('\\' :: 'u' :: hex4 (55296 + (c.toNat - 65536) / 1024)) ++
          ('\\' :: 'u' :: hex4 (56320 + (c.toNat - 65536) % 1024))) ++ rest)
      = (parseStrCharsF fl rest).map (fun p => (Char.ofNat c.toNat :: p.1, p.2)) := by
  have hlt : c.toNat < 1114112 := by
    rcases char_valid_range c with h | h <;> omega
  have hmod := Nat.mod_lt (c.toNat - 65536) (show 0 < 1024 by omega)
  have hhi : 55296 + (c.toNat - 65536) / 1024 < 65536 := by omega
  have hlo : 56320 + (c.toNat - 65536) % 1024 < 65536 := by omega
  have hsurr : 55296 ≤ 55296 + (c.toNat - 65536) / 1024 ∧
      55296 + (c.toNat - 65536) / 1024 ≤ 56319 := by
    refine ⟨by omega, by omega⟩
  have hlosurr : 56320 ≤ 56320 + (c.toNat - 65536) % 1024 ∧
      56320 + (c.toNat - 65536) % 1024 ≤ 57343 := by
    refine ⟨by omega, by omega⟩
  have hmain := parseStrCharsF_uGenPair fl _ _ _ _ _ _ _ _ rest
    (55296 + (c.toNat - 65536) / 1024) (56320 + (c.toNat - 65536) % 1024)
    (hex4Val_hex4 _ hhi) hsurr (hex4Val_hex4 _ hlo) hlosurr
  have harith : 65536 + (55296 + (c.toNat - 65536) / 1024 - 55296) * 1024 +
      (56320 + (c.toNat - 65536) % 1024 - 56320) = c.toNat := by omega
  simp only [harith] at hmain
  simp only [hex4, List.cons_append, List.nil_append]
  exact hmain

theorem parseStrCharsF_escChar (fl : Nat) (c : Char) (rest : List Char) :
    parseStrCharsF (fl + 1) (escChar c ++ rest)
      = (parseStrCharsF fl rest).map (fun p => (c :: p.1, p.2)) := by
  by_cases h1 : c = '"'
  · subst h1
    rw [show escChar '"' = ['\\', '"'] from by decide]
    exact parseStrCharsF_named fl '"' '"' rest (by decide) (by decide)
  by_cases h2 : c = '\\'
  · subst h2
    rw [show escChar '\\' = ['\\', '\\'] from by decide]
    exact parseStrCharsF_named fl '\\' '\\' rest (by decide) (by decide)
  by_cases h3 : c = Char.ofNat 8
  · subst h3
    rw [show escChar (Char.ofNat 8) = ['\\', 'b'] from by decide]
    exact parseStrCharsF_named fl 'b' (Char.ofNat 8) rest (by decide) (by decide)
  by_cases h4 : c = Char.ofNat 12
  · subst h4
    rw [show escChar (Char.ofNat 12) = ['\\', 'f'] from by decide]
    exact parseStrCharsF_named fl 'f' (Char.ofNat 12) rest (by decide) (by decide)
  by_cases h5 : c = '\n'
  · subst h5
    rw [show escChar '\n' = ['\\', 'n'] from by decide]
    exact parseStrCharsF_named fl 'n' '\n' rest (by decide) (by decide)
  by_cases h6 : c = Char.ofNat 13
  · subst h6
    rw [show escChar (Char.ofNat 13) = ['\\', 'r'] from by decide]
    exact parseStrCharsF_named fl 'r' (Char.ofNat 13) rest (by decide) (by decide)
  by_cases h7 : c = '\t'
  · subst h7
    rw [show escChar '\t' = ['\\', 't'] from by decide]
    exact parseStrCharsF_named fl 't' '\t' rest (by decide) (by decide)
  by_cases h8 : 32 ≤ c.toNat ∧ c.toNat ≤ 126
  · rw [escChar_plain h1 h2 h3 h4 h5 h6 h7 h8]
    exact parseStrCharsF_plainStep fl c rest h1 h2 (by omega)
  by_cases h9 : c.toNat < 65536
  · rw [escChar_u_single h1 h2 h3 h4 h5 h6 h7 h8 h9, List.cons_append, List.cons_append]
    have := parseStrCharsF_uSingle fl c rest h9
    simp only [List.cons_append] at this
    rw [this, Char.ofNat_toNat]
  · rw [escChar_u_pair h1 h2 h3 h4 h5 h6 h7 h8 h9]
    have := parseStrCharsF_uPair fl c rest h9
    rw [this, Char.ofNat_toNat]

theorem parseStrCharsF_flatMap : ∀ (l : List Char) (fl : Nat) (rest : List Char),
    l.length < fl →
    parseStrCharsF fl (l.flatMap escChar ++ '"' :: rest) = some (l, rest)
  | [], fl, rest, h => by
    cases fl with
    | zero => omega
    | succ f =>
      simp only [List.flatMap_nil, List.nil_append]
      simp only [parseStrCharsF]
      simp only [if_true]

  | ch :: t, fl, rest, h => by
    cases fl with
    | zero => omega
    | succ f =>
      rw [List.flatMap_cons, List.append_assoc, parseStrCharsF_escChar,
          parseStrCharsF_flatMap t f rest (by simp at h; omega)]
      rfl

theorem escChar_length_pos (c : Char) : 0 < (escChar c).length := by
  unfold escChar
  split_ifs <;> simp [hex4]

theorem flatMap_escChar_length (l : List Char) :
    l.length ≤ (l.flatMap escChar).length := by
  induction l with
  | nil => simp
  | cons ch t ih =>
    rw [List.flatMap_cons]
    have := escChar_length_pos ch
    simp only [List.length_append, List.length_cons]
    omega

theorem parseStrChars_enc (l : List Char) (rest : List Char) :
    parseStrChars (l.flatMap escChar ++ '"' :: rest) = some (l, rest) := by
  unfold parseStrChars
  apply parseStrCharsF_flatMap
  have := flatMap_escChar_length l
  simp only [List.length_append, List.length_cons]
  omega


theorem skipWs_cons {c : Char} (cs : List Char) (h : isWsChar c = false) :
    skipWs (c :: cs) = c :: cs := by
  simp [skipWs, h]

theorem skipWs_space (cs : List Char) : skipWs (' ' :: cs) = skipWs cs := by
  simp [skipWs, isWsChar]

theorem digit_facts {c : Char} (h : c.isDigit = true) :
    isWsChar c = false ∧ c ≠ 'n' ∧ c ≠ 't' ∧ c ≠ 'f' ∧ c ≠ '"' ∧ c ≠ '[' ∧
      c ≠ '\x7b' ∧ c ≠ ']' ∧ c ≠ '\x7d' := by
  refine ⟨?_, ?_, ?_, ?_, ?_, ?_, ?_, ?_, ?_⟩
  · cases hw : isWsChar c with
    | false => rfl
    | true =>
      simp only [isWsChar, Bool.or_eq_true, decide_eq_true_eq] at hw
      rcases hw with ((h1 | h1) | h1) | h1 <;> subst h1 <;> exact absurd h (by decide)
  all_goals intro hc
  all_goals subst hc
  all_goals exact absurd h (by decide)

theorem minus_facts :
    isWsChar '-' = false ∧ ('-' : Char) ≠ 'n' ∧ ('-' : Char) ≠ 't' ∧ ('-' : Char) ≠ 'f' ∧
      ('-' : Char) ≠ '"' ∧ ('-' : Char) ≠ '[' ∧ ('-' : Char) ≠ '\x7b' ∧
      ('-' : Char) ≠ ']' ∧ ('-' : Char) ≠ '\x7d' := by
  decide

theorem intChars_head (n : ℤ) :
    ∃ c t, intChars n = c :: t ∧ (c = '-' ∨ c.isDigit = true) := by
  unfold intChars
  split_ifs with h
  · exact ⟨'-', natChars n.natAbs, rfl, Or.inl rfl⟩
  · obtain ⟨c, t, hct, hd⟩ := natChars_head n.natAbs
    exact ⟨c, t, hct, Or.inr hd⟩

theorem encVal_head (v : PyVal) :
    ∃ c t, encVal v = c :: t ∧ isWsChar c = false ∧ c ≠ ']' ∧ c ≠ '\x7d' := by
  cases v with
  | none => exact ⟨'n', ['u', 'l', 'l'], by rw [encVal], by decide, by decide, by decide⟩
  | bool b =>
    cases b with
    | true => exact ⟨'t', ['r', 'u', 'e'], by rw [encVal], by decide, by decide, by decide⟩
    | false =>
      exact ⟨'f', ['a', 'l', 's', 'e'], by rw [encVal], by decide, by decide, by decide⟩
  | int n =>
    obtain ⟨c, t, hct, hd⟩ := intChars_head n
    have henc : encVal (.int n) = c :: t := by rw [encVal, hct]
    rcases hd with hd | hd
    · refine ⟨c, t, henc, ?_, ?_, ?_⟩ <;> subst hd <;> decide
    · obtain ⟨hw, _, _, _, _, _, _, h8, h9⟩ := digit_facts hd
      exact ⟨c, t, henc, hw, h8, h9⟩
  | str s =>
    exact ⟨'"', s.data.flatMap escChar ++ ['"'], by rw [encVal, encStrChars],
      by decide, by decide, by decide⟩
  | list xs =>
    cases xs with
    | nil => exact ⟨'[', [']'], by rw [encVal], by decide, by decide, by decide⟩
    | cons x t =>
      exact ⟨'[', encItems x t ++ [']'], by rw [encVal], by decide, by decide, by decide⟩
  | dict ps =>
    cases ps with
    | nil => exact ⟨'\x7b', ['\x7d'], by rw [encVal], by decide, by decide, by decide⟩
    | cons p t =>
      exact ⟨'\x7b', encMembers p t ++ ['\x7d'], by rw [encVal],
        by decide, by decide, by decide⟩

theorem encItems_head (x : PyVal) (xs : List PyVal) :
    ∃ c t, encItems x xs = c :: t ∧ isWsChar c = false ∧ c ≠ ']' ∧ c ≠ '\x7d' := by
  obtain ⟨c, t, hct, hw, h1, h2⟩ := encVal_head x
  cases xs with
  | nil => exact ⟨c, t, by rw [encItems, hct], hw, h1, h2⟩
  | cons y ys =>
    exact ⟨c, t ++ ',' :: ' ' :: encItems y ys,
      by rw [encItems, hct, List.cons_append], hw, h1, h2⟩

theorem encMembers_head (p : String × PyVal) (ps : List (String × PyVal)) :
    ∃ t, encMembers p ps = '"' :: t := by
  obtain ⟨k, v⟩ := p
  cases ps with
  | nil =>
    exact ⟨(k.data.flatMap escChar ++ ['"']) ++ ':' :: ' ' :: encVal v,
      by rw [encMembers, encStrChars, List.cons_append]⟩
  | cons q qs =>
    exact ⟨(k.data.flatMap escChar ++ ['"']) ++ ':' :: ' ' :: encVal v ++
        ',' :: ' ' :: encMembers q qs,
      by rw [encMembers, encStrChars]; simp⟩

theorem encVal_length_pos (v : PyVal) : 0 < (encVal v).length := by
  obtain ⟨c, t, hct, _⟩ := encVal_head v
  rw [hct]
  simp


theorem parseVal_null (f : Nat) (rest : List Char) :
    parseVal (f + 1) ('n' :: 'u' :: 'l' :: 'l' :: rest) = some (.none, rest) := by
  rw [parseVal, skipWs_cons _ (by decide)]
  simp only
  first
  | rw [if_pos rfl]
  | rw [if_pos trivial]

theorem parseVal_true (f : Nat) (rest : List Char) :
    parseVal (f + 1) ('t' :: 'r' :: 'u' :: 'e' :: rest) = some (.bool true, rest) := by
  rw [parseVal, skipWs_cons _ (by decide)]
  simp only
  rw [if_neg (by decide)]
  first
  | rw [if_pos rfl]
  | rw [if_pos trivial]

theorem parseVal_false (f : Nat) (rest : List Char) :
    parseVal (f + 1) ('f' :: 'a' :: 'l' :: 's' :: 'e' :: rest) = some (.bool false, rest) := by
  rw [parseVal, skipWs_cons _ (by decide)]
  simp only
  rw [if_neg (by decide), if_neg (by decide)]
  first
  | rw [if_pos rfl]
  | rw [if_pos trivial]

theorem parseVal_str (f : Nat) (rest : List Char) :
    parseVal (f + 1) ('"' :: rest)
      = (parseStrChars rest).map (fun p => (PyVal.str ⟨p.1⟩, p.2)) := by
  rw [parseVal, skipWs_cons _ (by decide)]
  simp only
  rw [if_neg (by decide), if_neg (by decide), if_neg (by decide)]
  first
  | rw [if_pos rfl]
  | rw [if_pos trivial]

theorem parseVal_num (f : Nat) (c : Char) (rest : List Char)
    (hd : c = '-' ∨ c.isDigit = true) :
    parseVal (f + 1) (c :: rest) = parseNum (c :: rest) := by
  have hw : isWsChar c = false := by
    rcases hd with hd | hd
    · subst hd; decide
    · exact (digit_facts hd).1
  have h1 : ¬ c = 'n' := by
    rcases hd with hd | hd
    · subst hd; decide
    · exact (digit_facts hd).2.1
  have h2 : ¬ c = 't' := by
    rcases hd with hd | hd
    · subst hd; decide
    · exact (digit_facts hd).2.2.1
  have h3 : ¬ c = 'f' := by
    rcases hd with hd | hd
    · subst hd; decide
    · exact (digit_facts hd).2.2.2.1
  have h4 : ¬ c = '"' := by
    rcases hd with hd | hd
    · subst hd; decide
    · exact (digit_facts hd).2.2.2.2.1
  have h5 : ¬ c = '[' := by
    rcases hd with hd | hd
    · subst hd; decide
    · exact (digit_facts hd).2.2.2.2.2.1
  have h6 : ¬ c = '\x7b' := by
    rcases hd with hd | hd
    · subst hd; decide
    · exact (digit_facts hd).2.2.2.2.2.2.1
  rw [parseVal, skipWs_cons _ hw]
  simp only
  rw [if_neg h1, if_neg h2, if_neg h3, if_neg h4, if_neg h5, if_neg h6, if_pos hd]

theorem parseVal_list_nil (f : Nat) (rest : List Char) :
    parseVal (f + 1) ('[' :: ']' :: rest) = some (.list [], rest) := by
  rw [parseVal, skipWs_cons _ (by decide)]
  simp only
  rw [if_neg (by decide), if_neg (by decide), if_neg (by decide), if_neg (by decide)]
  first
  | rw [if_pos rfl]
  | rw [if_pos trivial]
  rw [skipWs_cons _ (by decide)]
  simp only
  first
  | rw [if_pos rfl]
  | rw [if_pos trivial]

theorem parseVal_list_cons (f : Nat) (c : Char) (r : List Char)
    (hw : isWsChar c = false) (hne : ¬ c = ']') :
    parseVal (f + 1) ('[' :: c :: r)
      = (parseElems f (c :: r)).map (fun p => (PyVal.list p.1, p.2)) := by
  rw [parseVal, skipWs_cons _ (by decide)]
  simp only
  rw [if_neg (by decide), if_neg (by decide), if_neg (by decide), if_neg (by decide)]
  first
  | rw [if_pos rfl]
  | rw [if_pos trivial]
  rw [skipWs_cons _ hw]
  simp only
  rw [if_neg hne]

theorem parseVal_dict_nil (f : Nat) (rest : List Char) :
    parseVal (f + 1) ('\x7b' :: '\x7d' :: rest) = some (.dict [], rest) := by
  rw [parseVal, skipWs_cons _ (by decide)]
  simp only
  rw [if_neg (by decide), if_neg (by decide), if_neg (by decide), if_neg (by decide),
      if_neg (by decide)]
  first
  | rw [if_pos rfl]
  | rw [if_pos trivial]
  rw [skipWs_cons _ (by decide)]
  simp only
  first
  | rw [if_pos rfl]
  | rw [if_pos trivial]

theorem parseVal_dict_cons (f : Nat) (c : Char) (r : List Char)
    (hw : isWsChar c = false) (hne : ¬ c = '\x7d') :
    parseVal (f + 1) ('\x7b' :: c :: r)
      = (parseMembers f (c :: r)).map (fun p => (PyVal.dict p.1, p.2)) := by
  rw [parseVal, skipWs_cons _ (by decide)]
  simp only
  rw [if_neg (by decide), if_neg (by decide), if_neg (by decide), if_neg (by decide),
      if_neg (by decide)]
  first
  | rw [if_pos rfl]
  | rw [if_pos trivial]
  rw [skipWs_cons _ hw]
  simp only
  rw [if_neg hne]


theorem roundTripAux : ∀ f : Nat,
    (∀ v rest, (encVal v).length < f → numDelim rest = true →
      parseVal f (encVal v ++ rest) = some (v, rest)) ∧
    (∀ x xs rest, (encItems x xs).length + 1 < f →
      parseElems f (encItems x xs ++ ']' :: rest) = some (x :: xs, rest)) ∧
    (∀ k v ps rest, (encMembers (k, v) ps).length + 1 < f →
      parseMembers f (encMembers (k, v) ps ++ '\x7d' :: rest) = some ((k, v) :: ps, rest)) := by
  intro f
  induction f with
  | zero =>
    refine ⟨?_, ?_, ?_⟩
    · intro v rest h _
      exact absurd h (by omega)
    · intro x xs rest h
      exact absurd h (by omega)
    · intro k v ps rest h
      exact absurd h (by omega)
  | succ f ih =>
    obtain ⟨ihV, ihE, ihM⟩ := ih
    refine ⟨?_, ?_, ?_⟩
    · intro v rest hlen hrest
      cases v with
      | none =>
        rw [show encVal PyVal.none = ['n', 'u', 'l', 'l'] from by rw [encVal]]
        simp only [List.cons_append, List.nil_append]
        exact parseVal_null f rest
      | bool b =>
        cases b with
        | true =>
          rw [show encVal (PyVal.bool true) = ['t', 'r', 'u', 'e'] from by rw [encVal]]
          simp only [List.cons_append, List.nil_append]
          exact parseVal_true f rest
        | false =>
          rw [show encVal (PyVal.bool false) = ['f', 'a', 'l', 's', 'e'] from by rw [encVal]]
          simp only [List.cons_append, List.nil_append]
          exact parseVal_false f rest
      | int n =>
        rw [show encVal (PyVal.int n) = intChars n from by rw [encVal]]
        obtain ⟨c, t, hct, hd⟩ := intChars_head n
        rw [hct, List.cons_append, parseVal_num f c _ hd, ← List.cons_append, ← hct]
        exact parseNum_intChars n rest hrest
      | str s =>
        rw [show encVal (PyVal.str s) = '"' :: (s.data.flatMap escChar ++ ['"'])
          from by rw [encVal, encStrChars]]
        simp only [List.cons_append, List.append_assoc, List.singleton_append, List.nil_append]
        rw [parseVal_str f _, parseStrChars_enc s.data rest]
        rfl
      | list xs =>
        cases xs with
        | nil =>
          rw [show encVal (PyVal.list []) = ['[', ']'] from by rw [encVal]]
          simp only [List.cons_append, List.nil_append]
          exact parseVal_list_nil f rest
        | cons x t =>
          have henc : encVal (PyVal.list (x :: t)) = '[' :: (encItems x t ++ [']']) := by
            rw [encVal]
          rw [henc] at hlen ⊢
          simp only [List.length_cons, List.length_append, List.length_singleton] at hlen
          simp only [List.cons_append, List.append_assoc, List.singleton_append, List.nil_append]
          obtain ⟨c2, t2, hct, hw, hne, _⟩ := encItems_head x t
          rw [hct, List.cons_append, parseVal_list_cons f c2 _ hw hne,
              ← List.cons_append, ← hct]
          rw [ihE x t rest (by omega)]
          rfl
      | dict ps =>
        cases ps with
        | nil =>
          rw [show encVal (PyVal.dict []) = ['\x7b', '\x7d'] from by rw [encVal]]
          simp only [List.cons_append, List.nil_append]
          exact parseVal_dict_nil f rest
        | cons p t =>
          obtain ⟨k, v⟩ := p
          have henc : encVal (PyVal.dict ((k, v) :: t))
              = '\x7b' :: (encMembers (k, v) t ++ ['\x7d']) := by
            rw [encVal]
          rw [henc] at hlen ⊢
          simp only [List.length_cons, List.length_append, List.length_singleton] at hlen
          simp only [List.cons_append, List.append_assoc, List.singleton_append, List.nil_append]
          obtain ⟨t2, hct⟩ := encMembers_head (k, v) t
          rw [hct, List.cons_append, parseVal_dict_cons f '"' _ (by decide) (by decide),
              ← List.cons_append, ← hct]
          rw [ihM k v t rest (by omega)]
          rfl
    · intro x xs rest hb
      cases xs with
      | nil =>
        rw [show encItems x [] = encVal x from by rw [encItems]] at hb ⊢
        rw [parseElems, ihV x (']' :: rest) (by omega) rfl]
        simp only
        rw [skipWs_cons _ (by decide)]
        simp only
        rw [if_neg (by decide)]
        first
        | rw [if_pos rfl]
        | rw [if_pos trivial]
      | cons y ys =>
        have henc : encItems x (y :: ys) = encVal x ++ ',' :: ' ' :: encItems y ys := by
          rw [encItems]
        rw [henc] at hb ⊢
        simp only [List.length_append, List.length_cons] at hb
        have hxpos := encVal_length_pos x
        simp only [List.append_assoc, List.cons_append, List.nil_append]
        rw [parseElems,
            ihV x (',' :: ' ' :: (encItems y ys ++ ']' :: rest)) (by omega) rfl]
        simp only
        rw [skipWs_cons _ (by decide)]
        simp only
        first
        | rw [if_pos rfl]
        | rw [if_pos trivial]
        rw [skipWs_space]
        obtain ⟨c2, t2, hct, hw, _, _⟩ := encItems_head y ys
        rw [hct, List.cons_append, skipWs_cons _ hw, ← List.cons_append, ← hct]
        rw [ihE y ys rest (by omega)]
        rfl
    · intro k v ps rest hb
      cases ps with
      | nil =>
        have henc : encMembers (k, v) [] = encStrChars k ++ ':' :: ' ' :: encVal v := by
          rw [encMembers]
        rw [henc] at hb ⊢
        rw [encStrChars] at hb ⊢
        simp only [List.length_append, List.length_cons] at hb
        have hvpos := encVal_length_pos v
        simp only [List.cons_append, List.append_assoc, List.singleton_append,
          List.nil_append]
        rw [parseMembers, skipWs_cons _ (by decide)]
        simp only
        rw [parseStrChars_enc k.data (':' :: ' ' :: (encVal v ++ '\x7d' :: rest))]
        simp only
        rw [skipWs_cons _ (by decide)]
        simp only
        rw [skipWs_space]
        obtain ⟨c2, t2, hct, hw, _, _⟩ := encVal_head v
        rw [hct, List.cons_append, skipWs_cons _ hw, ← List.cons_append, ← hct]
        rw [ihV v ('\x7d' :: rest) (by omega) rfl]
        simp only
        rw [skipWs_cons _ (by decide)]
        simp only
        rw [if_neg (by decide)]
        first
        | rw [if_pos rfl]
        | rw [if_pos trivial]
      | cons q qs =>
        obtain ⟨k2, v2⟩ := q
        have henc : encMembers (k, v) ((k2, v2) :: qs)
            = encStrChars k ++ ':' :: ' ' :: encVal v ++
              ',' :: ' ' :: encMembers (k2, v2) qs := by
          rw [encMembers]
        rw [henc] at hb ⊢
        rw [encStrChars] at hb ⊢
        simp only [List.length_append, List.length_cons] at hb
        have hvpos := encVal_length_pos v
        have hmpos : 0 < (encMembers (k2, v2) qs).length := by
          obtain ⟨t3, hct3⟩ := encMembers_head (k2, v2) qs
          rw [hct3]
          simp
        simp only [List.cons_append, List.append_assoc, List.singleton_append,
          List.nil_append]
        rw [parseMembers, skipWs_cons _ (by decide)]
        simp only
        rw [parseStrChars_enc k.data
          (':' :: ' ' :: (encVal v ++ ',' :: ' ' :: (encMembers (k2, v2) qs ++
            '\x7d' :: rest)))]
        simp only
        rw [skipWs_cons _ (by decide)]
        simp only
        rw [skipWs_space]
        obtain ⟨c2, t2, hct, hw, _, _⟩ := encVal_head v
        rw [hct, List.cons_append, skipWs_cons _ hw, ← List.cons_append, ← hct]
        rw [ihV v (',' :: ' ' :: (encMembers (k2, v2) qs ++ '\x7d' :: rest))
          (by omega) rfl]
        simp only
        rw [skipWs_cons _ (by decide)]
        simp only
        first
        | rw [if_pos rfl]
        | rw [if_pos trivial]
        rw [skipWs_space]
        obtain ⟨t3, hct3⟩ := encMembers_head (k2, v2) qs
        rw [hct3, List.cons_append, skipWs_cons _ (by decide), ← List.cons_append, ← hct3]
        rw [ihM k2 v2 qs rest (by omega)]
        rfl

theorem jsonLoads_jsonDumps (v : PyVal) : jsonLoads (jsonDumps v) = some v := by
  have h := (roundTripAux ((encVal v).length + 1)).1 v [] (by omega) rfl
  rw [List.append_nil] at h
  unfold jsonLoads jsonDumps
  dsimp only
  rw [h]
  rfl


def serializeValue (v : PyVal) : String :=
  match v with
  | .dict ps => jsonDumps (.dict ps)
  | .list xs => jsonDumps (.list xs)
  | .str s => s
  | .int n => ⟨intChars n⟩
  | .bool true => "True"
  | .bool false => "False"
  | .none => "None"

def isStructured : PyVal → Bool
  | .dict _ => true
  | .list _ => true
  | _ => false

def Store : Type := List (String × String × ℚ)

def storeLookup : Store → String → Option (String × ℚ)
  | [], _ => Option.none
  | (k2, s, e) :: t, k => if k2 = k then some (s, e) else storeLookup t k

def cacheSet (st : Store) (k : String) (v : PyVal) (ttl : ℚ) (now : ℚ) : Store :=
  (k, serializeValue v, now + ttl) :: st

def cacheGet (st : Store) (k : String) (now : ℚ) : Option PyVal :=
  match storeLookup st k with
  | Option.none => Option.none
  | some (s, e) =>
    if now < e then
      match jsonLoads s with
      | some v => some v
      | Option.none => some (.str s)
    else Option.none



/-- C7 counterexample: `RedisCache.set` of the plain string `"hello"` stores it via
`str()`; on `get`, `json.loads` fails to decode it and the code's explicit
`except json.JSONDecodeError` branch returns the raw string unchanged — a non-none
value on a decode failure, contradicting the spec's "returns none on miss or on any
decode failure". -/
theorem c7_counterexample_decode_failure_nonnone :
    jsonLoads "hello" = Option.none ∧
    cacheGet (cacheSet [] "k" (.str "hello") 100 0) "k" 0 = some (.str "hello") ∧
    some (PyVal.str "hello") ≠ Option.none := by
  refine ⟨rfl, ?_, by simp⟩
  unfold cacheGet cacheSet storeLookup
  rw [if_pos rfl]
  simp only
  rw [if_pos (show (0 : ℚ) < 0 + 100 by norm_num),
      show serializeValue (PyVal.str "hello") = "hello" from rfl,
      show jsonLoads "hello" = Option.none from rfl]

/-- C7 amended: `RedisCache.get` returns none on a miss and on an expired entry, and
a decode failure is not raised — but instead of none, the stored value that fails
JSON decoding is returned verbatim as a raw string. -/
theorem c7_get_decode_failure_returns_raw (st : Store) (k : String) (now : ℚ) :
    (storeLookup st k = Option.none → cacheGet st k now = Option.none) ∧
    (∀ s e, storeLookup st k = some (s, e) → ¬ now < e →
      cacheGet st k now = Option.none) ∧
    (∀ s e, storeLookup st k = some (s, e) → now < e → jsonLoads s = Option.none →
      cacheGet st k now = some (.str s)) := by
  refine ⟨?_, ?_, ?_⟩
  · intro h
    unfold cacheGet
    rw [h]
  · intro s e h hne
    unfold cacheGet
    rw [h]
    simp only
    rw [if_neg hne]
  · intro s e h hlt hdec
    unfold cacheGet
    rw [h]
    simp only
    rw [if_pos hlt, hdec]

/-- C7 amended witness: the three branches of the get policy evaluated on concrete
stores — a miss, an expired entry, and a live entry holding the non-JSON text
`"world"`. -/
theorem c7_get_decode_failure_returns_raw_witness :
    cacheGet [] "q" 0 = Option.none ∧
    cacheGet [("q", "5x", (10 : ℚ))] "q" 20 = Option.none ∧
    cacheGet [("q", "world", (10 : ℚ))] "q" 0 = some (.str "world") :=
  ⟨(c7_get_decode_failure_returns_raw [] "q" 0).1 rfl,
   (c7_get_decode_failure_returns_raw [("q", "5x", 10)] "q" 20).2.1 "5x" 10 rfl
     (by norm_num),
   (c7_get_decode_failure_returns_raw [("q", "world", 10)] "q" 0).2.2 "world" 10 rfl
     (by norm_num) rfl⟩

/-- C8: a set of a structured value (a dict or a list, which `RedisCache.set`
serializes with `json.dumps`) followed by a get on the same key before the TTL
elapses returns a value deep-equal to the original input, because `json.loads`
inverts `json.dumps` on every value. -/
theorem c8_structured_roundtrip (st : Store) (k : String) (v : PyVal)
    (ttl now now2 : ℚ) (hs : isStructured v = true) (ht : now2 < now + ttl) :
    cacheGet (cacheSet st k v ttl now) k now2 = some v := by
  unfold cacheGet cacheSet storeLookup
  rw [if_pos rfl]
  simp only
  rw [if_pos ht]
  have hser : serializeValue v = jsonDumps v := by
    cases v <;> simp_all [isStructured, serializeValue]
  rw [hser, jsonLoads_jsonDumps]

/-- C8 witness: the round trip evaluated on the spec's own example value
`{"a": 1, "b": [1, 2, 3]}` with ttl 60, set at time 0 and read at time 30. -/
theorem c8_structured_roundtrip_witness :
    isStructured (PyVal.dict [("a", .int 1), ("b", .list [.int 1, .int 2, .int 3])])
      = true ∧
    (30 : ℚ) < 0 + 60 ∧
    cacheGet
        (cacheSet [] "k"
          (PyVal.dict [("a", .int 1), ("b", .list [.int 1, .int 2, .int 3])]) 60 0)
        "k" 30
      = some (PyVal.dict [("a", .int 1), ("b", .list [.int 1, .int 2, .int 3])]) :=
  ⟨rfl, by norm_num,
   c8_structured_roundtrip [] "k"
     (PyVal.dict [("a", .int 1), ("b", .list [.int 1, .int 2, .int 3])]) 60 0 30
     rfl (by norm_num)⟩


end MCPPriceRanking
